import Mathlib

/-!
Verification development for the `channeldb` storage engine of lnd
(`src/channeldb/db.go`).  The Go code is shallowly embedded: the bbolt
key/value file is modelled as explicit Lean state (nested association
lists for nested buckets), a `d.Update` transaction is a function that
either returns the new state or an error (in which case the caller keeps
the old state, mirroring bbolt's rollback), and machine integers are
`Nat`s with explicit bounds where they matter.  Serialized record values
are modelled in decoded form: the codec (`readOutpoint`, the close
summary serializers, ...) lives outside `db.go` and, per the spec, is a
pure bit-exact round-tripping transformation, so a bucket value is
represented by the record it decodes to.  Keys, whose byte-level shape
drives cursor order and slicing, are modelled as byte lists.
-/

set_option maxRecDepth 4000

namespace ChannelDB

/-- Byte strings (bucket keys, serialized public keys, chain hashes). -/
abbrev Bytes := List Nat

/-- Go `bytes.Compare`: lexicographic byte-wise comparison where a strict
prefix is smaller than the longer string. -/
def cmpBytes : Bytes → Bytes → Ordering
  | [], [] => .eq
  | [], _ :: _ => .lt
  | _ :: _, [] => .gt
  | a :: as, b :: bs =>
    if a < b then .lt else if b < a then .gt else cmpBytes as bs

/-- Big-endian serialization of a 32-bit integer (`binary.BigEndian`),
as used by `writeOutpoint` for the output index. -/
def be32 (n : Nat) : Bytes :=
  [n / 2 ^ 24 % 256, n / 2 ^ 16 % 256, n / 2 ^ 8 % 256, n % 256]

/-- Big-endian deserialization of four bytes. -/
def debe32 (a b c d : Nat) : Nat :=
  ((a * 256 + b) * 256 + c) * 256 + d

/-- A `wire.OutPoint`: a 32-byte transaction hash plus a `uint32` output
index. -/
structure OutPoint where
  hash : Bytes
  index : Nat
deriving DecidableEq, Repr

/-- Well-formedness of an outpoint: hash of exactly 32 bytes, index in
`uint32` range. -/
def OutPoint.WF (op : OutPoint) : Prop :=
  op.hash.length = 32 ∧ op.index < 2 ^ 32

instance (op : OutPoint) : Decidable op.WF := by
  unfold OutPoint.WF; infer_instance

/-- Modelled from the spec (§4.2; `writeOutpoint` lives outside `db.go`):
an outpoint is serialized as the 32-byte txid followed by the big-endian
32-bit output index, 36 bytes in total. -/
def serOutpoint (op : OutPoint) : Bytes :=
  op.hash ++ be32 op.index

/-- The outpoint denoted by a bucket key: the first 32 bytes as the
txid, the next four as the big-endian index. -/
def keyOutpoint (k : Bytes) : OutPoint :=
  match k.drop 32 with
  | a :: b :: c :: d :: _ => ⟨k.take 32, debe32 a b c d⟩
  | _ => ⟨k.take 32, 0⟩

/-- Modelled from the spec (§4.2; `readOutpoint` lives outside `db.go`):
decode a 36-byte key back into an outpoint; fails on truncated input. -/
def readOutpointKey (k : Bytes) : Option OutPoint :=
  if k.length < 36 then none else some (keyOutpoint k)

/-- Error values surfaced by the store (kinds, per spec §7). -/
inductive Err where
  | errDBReversion
  | errMetaNotFound
  | errChannelNotFound
  | errNoActiveChannels
  | errClosedChannelNotFound
  | errNoClosedChannels
  | errGraphNotFound
  | errEdgeAlreadyExist
  | errBucketNotFound
  | errCodec
  | errNoCloseSummaryFound
  | errNodeBucketMissing
  | errSliceBounds
  | errMigrationFailed (n : Nat)
deriving DecidableEq, Repr

instance {ε α : Type} [DecidableEq ε] [DecidableEq α] : DecidableEq (Except ε α) :=
  fun x y =>
  match x, y with
  | .ok a, .ok b => if h : a = b then .isTrue (by rw [h]) else .isFalse (by simp [h])
  | .error a, .error b =>
    if h : a = b then .isTrue (by rw [h]) else .isFalse (by simp [h])
  | .ok _, .error _ => .isFalse (by simp)
  | .error _, .ok _ => .isFalse (by simp)

/-- Close types of a `ChannelCloseSummary` (db.go enumerates these in the
`CloseType` enum; `Abandoned` is the one synthesized by `AbandonChannel`). -/
inductive CloseType where
  | cooperativeClose
  | localForceClose
  | remoteForceClose
  | breachClose
  | fundingCanceled
  | abandoned
deriving DecidableEq, Repr

/-- A `ChannelCloseSummary`, in decoded form (the serialized bytes stored
in the closed-channel bucket are represented by the record they decode
to; the codec is external to `db.go` and round-trips per spec §8.1). -/
structure Summary where
  closeType : CloseType
  chanPoint : Bytes
  chainHash : Bytes
  closeHeight : Nat
  remotePub : Bytes
  capacity : Nat
  settledBalance : Nat
  shortChanID : Nat
  isPending : Bool
deriving DecidableEq, Repr

/-- Association-list lookup, mirroring `bucket.Get` (exact key match). -/
def alookup {κ β : Type} [DecidableEq κ] (xs : List (κ × β)) (k : κ) : Option β :=
  (xs.find? fun p => decide (p.1 = k)).map (·.2)

/-- Association-list insert-or-overwrite, mirroring `bucket.Put`. -/
def aput {κ β : Type} [DecidableEq κ] : List (κ × β) → κ → β → List (κ × β)
  | [], k, v => [(k, v)]
  | p :: rest, k, v => if p.1 = k then (k, v) :: rest else p :: aput rest k v

/-- Association-list delete, mirroring `bucket.Delete`. -/
def aerase {κ β : Type} [DecidableEq κ] (xs : List (κ × β)) (k : κ) : List (κ × β) :=
  xs.filter fun p => decide (¬ p.1 = k)

/-! ### Meta and migration engine (`syncVersions`, `getMigrationsToApply`,
`createChannelDB`, `Open`; db.go lines 136–180, 237–327, 1145–1230).

The registered version list is a parameter: the migration functions
themselves come from `migration_01_to_11`, outside this file, so a
migration is an arbitrary bucket-state transform `α → Except Err α`.
The meta record (`FetchMeta`/`putMeta` live in `meta.go`, outside
`src/`; modelled from the spec §6: singleton key holding the version)
is an `Option Nat` field of the state. -/

/-- One entry of `dbVersions`: a target `number` and an optional
migration function (the genesis slot holds `nil`). -/
structure VersionEntry (α : Type) where
  number : Nat
  migration : Option (α → Except Err α)

/-- The logical content of the database file for the migration engine:
the meta version record (`none` = no meta record) plus the remaining
bucket state, abstracted as `α`. -/
structure MigState (α : Type) where
  meta : Option Nat
  data : α
deriving DecidableEq, Repr

/-- `getLatestDBVersion`: the number of the last registered version. -/
def getLatestDBVersion {α : Type} (versions : List (VersionEntry α)) : Nat :=
  ((versions.getLast?).map (·.number)).getD 0

/-- `getMigrationsToApply`: every registered entry whose target number is
strictly greater than the current version, in registration order.  The
Go function returns the migrations and their numbers as two parallel
slices; the filtered entry list here carries both components. -/
def getMigrationsToApply {α : Type} (versions : List (VersionEntry α)) (v : Nat) :
    List (VersionEntry α) :=
  versions.filter fun e => decide (v < e.number)

/-- The migration loop body of `syncVersions` (db.go lines 1188–1200):
apply each selected migration in order, skipping `nil` slots, stopping
at the first error.  The second component records the versions whose
migration was actually invoked (the `Applying migration #v` trace). -/
def applyMigrationList {α : Type} : List (VersionEntry α) → α → Except Err α × List Nat
  | [], a => (.ok a, [])
  | v :: rest, a =>
    match v.migration with
    | none => applyMigrationList rest a
    | some m =>
      match m a with
      | .error e => (.error e, [v.number])
      | .ok a2 =>
        let r := applyMigrationList rest a2
        (r.1, v.number :: r.2)

/-- `syncVersions` (db.go lines 1148–1205).  Returns the post-call state
(with `d.Update`'s rollback applied on error), the error if any, and the
trace of migration versions that were invoked.  A missing meta record is
read as `&Meta{}`, i.e. version 0 (lines 1150–1156). -/
def syncVersions {α : Type} (versions : List (VersionEntry α)) (s : MigState α) :
    MigState α × Option Err × List Nat :=
  let dbVersion := s.meta.getD 0
  let latest := getLatestDBVersion versions
  if latest < dbVersion then
    (s, some .errDBReversion, [])
  else if dbVersion = latest then
    (s, none, [])
  else
    match applyMigrationList (getMigrationsToApply versions dbVersion) s.data with
    | (.ok a2, tr) => ({ meta := some latest, data := a2 }, none, tr)
    | (.error e, tr) => (s, some e, tr)

/-- `createChannelDB` (db.go lines 237–327) as it affects the migration
engine: the fresh file carries the initial bucket state and a meta
record already holding the latest registered version. -/
def createChannelDBState {α : Type} (versions : List (VersionEntry α)) (init : α) :
    MigState α :=
  { meta := some (getLatestDBVersion versions), data := init }

/-- `Open` (db.go lines 138–180): create the file if absent, then
synchronize versions.  `file = none` models an absent `channel.db`. -/
def openDB {α : Type} (versions : List (VersionEntry α)) (file : Option (MigState α))
    (init : α) : MigState α × Option Err × List Nat :=
  let f := match file with
    | none => createChannelDBState versions init
    | some s => s
  syncVersions versions f

/-! ### `Wipe` (db.go lines 190–231). -/

/-- The top-level buckets of the file (spec §6), each `Option` so that a
missing bucket and a present one (with opaque content) are distinguished.
`edgeIndexTop` stands for a root-level bucket named `edge-index-bucket`:
`Wipe` issues a root-level `DeleteBucket(edgeIndexBucket)` even though
that bucket only ever exists nested under `edge-bucket`. -/
structure TopLevel where
  openChan : Option Nat
  closedChan : Option Nat
  fwdLog : Option Nat
  fwdPackages : Option Nat
  invoice : Option Nat
  nodeInfo : Option Nat
  nodes : Option Nat
  edges : Option Nat
  edgeIndexTop : Option Nat
  graphMeta : Option Nat
  metaBucket : Option Nat
deriving DecidableEq, Repr

/-- `tx.DeleteBucket`: removes the bucket, reporting `ErrBucketNotFound`
when it was absent. -/
def deleteBucket (b : Option Nat) : Option Nat × Option Err :=
  (none, if b.isSome then none else some .errBucketNotFound)

/-- One `DeleteBucket` call of `Wipe` with its
`err != nil && err != bbolt.ErrBucketNotFound` tolerance check. -/
def wipeDelete (b : Option Nat) : Except Err (Option Nat) :=
  match deleteBucket b with
  | (b2, none) => .ok b2
  | (b2, some .errBucketNotFound) => .ok b2
  | (_, some e) => .error e

/-- The transaction body of `Wipe` (db.go lines 191–230): deletes, in
order, `open-chan-bucket`, `closed-channel-bucket`, `invoice-bucket`,
`node-info-bucket`, `node-bucket`, `edge-bucket`, a root-level
`edge-index-bucket`, and `graph-meta-bucket`.  No other bucket is
touched. -/
def wipeTx (s : TopLevel) : Except Err TopLevel := do
  let oc ← wipeDelete s.openChan
  let cc ← wipeDelete s.closedChan
  let inv ← wipeDelete s.invoice
  let ni ← wipeDelete s.nodeInfo
  let nb ← wipeDelete s.nodes
  let eb ← wipeDelete s.edges
  let ei ← wipeDelete s.edgeIndexTop
  let gm ← wipeDelete s.graphMeta
  pure { s with
    openChan := oc, closedChan := cc, invoice := inv, nodeInfo := ni,
    nodes := nb, edges := eb, edgeIndexTop := ei, graphMeta := gm }

/-- `Wipe` (db.go lines 190–231): the transaction body under
`d.Update`'s commit-or-rollback semantics. -/
def Wipe (s : TopLevel) : TopLevel × Option Err :=
  match wipeTx s with
  | .ok s2 => (s2, none)
  | .error e => (s, some e)

/-! ### Channel store (`fetchChannels` and friends, `MarkChanFullyClosed`,
`AbandonChannel`; db.go lines 340–691, 821–910, 1097–1143).

The open-channel tree is `open-chan-bucket / peer-pub / chain-hash /
outpoint`, three nested bucket levels.  A leaf channel bucket is
represented by the decoded `ChanRecord` it holds (`fetchOpenChannel` /
`putOpenChannel` are the external codec).  The `node-info-bucket` maps a
peer's serialized public key to its serialized link-node record. -/

/-- `ChanStatusDefault`: the zero status bitset (channel.go, external to
`db.go`; only `status = Default` vs `status ≠ Default` matters here). -/
def chanStatusDefault : Nat := 0

/-- Modelled from the spec (§3: status bitset with at least `Default` and
`Restored`; `ChanStatusRestored` is declared in `channel.go`, outside
`src/`): the `Restored` status bit. -/
def chanStatusRestored : Nat := 8

/-- The fields of an `OpenChannel` that `db.go` itself inspects. -/
structure ChanRecord where
  identityPub : Bytes
  chainHash : Bytes
  fundingOutpoint : OutPoint
  isPending : Bool
  chanStatus : Nat
  capacity : Nat
  localBalance : Nat
  shortChanID : Nat
deriving DecidableEq, Repr

/-- A chain-hash bucket: outpoint key to channel record. -/
abbrev ChainBucket := List (Bytes × ChanRecord)

/-- A per-peer bucket: chain hash to chain bucket. -/
abbrev NodeChanBucket := List (Bytes × ChainBucket)

/-- The `open-chan-bucket`: peer public key to per-peer bucket. -/
abbrev OpenBucket := List (Bytes × NodeChanBucket)

instance : DecidableEq ChainBucket := fun a b => instDecidableEqList a b

instance : DecidableEq NodeChanBucket := fun a b => instDecidableEqList a b

instance : DecidableEq OpenBucket := fun a b => instDecidableEqList a b

/-- The slice of the database the channel-store operations touch.  Each
top-level bucket is `Option` so that an absent bucket is distinguished
from an empty one (the code branches on `tx.Bucket(...) == nil`). -/
structure ChanDB where
  openBucket : Option OpenBucket
  nodeInfo : Option (List (Bytes × Bytes))
  closedBucket : Option (List (Bytes × Summary))
deriving DecidableEq, Repr

/-- `fetchOpenChannels` (db.go lines 359–407): all channels stored under
`open-chan-bucket/{peer}/*/*`; a missing top-level or per-peer bucket
yields the empty list. -/
def fetchOpenChannelsM (db : ChanDB) (pub : Bytes) : List ChanRecord :=
  match db.openBucket with
  | none => []
  | some ob =>
    match alookup ob pub with
    | none => []
    | some chains => chains.flatMap fun c => c.2.map (·.2)

/-- The per-channel filter of `fetchChannels` (db.go lines 661–680):
keep a channel iff its `IsPending` flag equals the requested `pending`
and its waiting-close state (`ChanStatus() != ChanStatusDefault`) equals
the requested `waitingClose`. -/
def chanFilter (pending waitingClose : Bool) (c : ChanRecord) : Bool :=
  c.isPending = pending &&
    (decide (¬ c.chanStatus = chanStatusDefault)) = waitingClose

/-- `fetchChannels` (db.go lines 612–691): walk the `node-info-bucket`
keys (the canonical peer set), for each peer walk its open-channel
chain buckets, and keep the channels passing `chanFilter`.  Errors when
`open-chan-bucket` or `node-info-bucket` is absent. -/
def fetchChannels (db : ChanDB) (pending waitingClose : Bool) :
    Except Err (List ChanRecord) :=
  match db.openBucket with
  | none => .error .errNoActiveChannels
  | some ob =>
    match db.nodeInfo with
    | none => .error .errNodeBucketMissing
    | some peers =>
      .ok <| peers.flatMap fun pr =>
        match alookup ob pr.1 with
        | none => []
        | some chains =>
          chains.flatMap fun c =>
            (c.2.map (·.2)).filter (chanFilter pending waitingClose)

/-- `FetchAllOpenChannels` (db.go line 578): `fetchChannels(d, false, false)`. -/
def fetchAllOpenChannels (db : ChanDB) : Except Err (List ChanRecord) :=
  fetchChannels db false false

/-- `FetchPendingChannels` (db.go line 585): `fetchChannels(d, true, false)`. -/
def fetchPendingChannels (db : ChanDB) : Except Err (List ChanRecord) :=
  fetchChannels db true false

/-- `FetchWaitingCloseChannels` (db.go lines 593–604):
`fetchChannels(d, false, true) ++ fetchChannels(d, true, true)`. -/
def fetchWaitingCloseChannels (db : ChanDB) : Except Err (List ChanRecord) := do
  let waiting ← fetchChannels db false true
  let pendingWaiting ← fetchChannels db true true
  return waiting ++ pendingWaiting

/-- `FetchAllChannels` (db.go lines 550–573): the concatenation of the
fully-open, pending, and waiting-close queries. -/
def fetchAllChannels (db : ChanDB) : Except Err (List ChanRecord) := do
  let opens ← fetchAllOpenChannels db
  let pendings ← fetchPendingChannels db
  let waiting ← fetchWaitingCloseChannels db
  return opens ++ pendings ++ waiting

/-- `FetchChannel` (db.go lines 453–545): scan
`open-chan-bucket/*/*/` for the serialized outpoint, skipping outer keys
whose length is not 33; `ErrChannelNotFound` when the walk finds
nothing, `ErrNoActiveChannels` when the top-level bucket is absent.
Later matches overwrite earlier ones, as the Go `ForEach` assignment
does. -/
def scanOpen (ob : OpenBucket) (key : Bytes) : Option ChanRecord :=
  ob.foldl
    (fun acc pr =>
      if pr.1.length = 33 then
        pr.2.foldl
          (fun acc2 c =>
            match alookup c.2 key with
            | some ch => some ch
            | none => acc2)
          acc
      else acc)
    none

def fetchChannelM (db : ChanDB) (op : OutPoint) : Except Err ChanRecord :=
  match db.openBucket with
  | none => .error .errNoActiveChannels
  | some ob =>
    match scanOpen ob (serOutpoint op) with
    | some ch => .ok ch
    | none => .error .errChannelNotFound

/-- `FetchClosedChannel` (db.go lines 738–766): point lookup of the
serialized outpoint in the closed-channel bucket. -/
def fetchClosedChannelM (db : ChanDB) (op : OutPoint) : Except Err Summary :=
  match db.closedBucket with
  | none => .error .errClosedChannelNotFound
  | some closed =>
    match alookup closed (serOutpoint op) with
    | none => .error .errClosedChannelNotFound
    | some s => .ok s

/-- Modelled from the spec (§4.5/§4.6; `deleteLinkNode` lives in
`node.go`, outside `src/`): delete the peer's link-node record from the
`node-info-bucket`. -/
def deleteLinkNodeM (db : ChanDB) (pub : Bytes) : ChanDB :=
  { db with nodeInfo := db.nodeInfo.map fun xs => aerase xs pub }

/-- `pruneLinkNode` (db.go lines 875–890): if the peer still has open
channels this is a no-op, otherwise its link-node record is deleted. -/
def pruneLinkNodeM (db : ChanDB) (remotePub : Bytes) : ChanDB :=
  if (fetchOpenChannelsM db remotePub).length > 0 then db
  else deleteLinkNodeM db remotePub

/-- `MarkChanFullyClosed` (db.go lines 821–870), with `d.Update`'s
rollback folded in: on any error the returned state is the input state.
Looks up the close summary, fails if absent, stores it back with
`IsPending = false`, then prunes the peer's link node. -/
def markChanFullyClosed (db : ChanDB) (chanPoint : OutPoint) : ChanDB × Option Err :=
  let chanID := serOutpoint chanPoint
  -- CreateBucketIfNotExists(closedChannelBucket)
  let closed := db.closedBucket.getD []
  match alookup closed chanID with
  | none => (db, some .errNoCloseSummaryFound)
  | some chanSummary =>
    let s2 := { chanSummary with isPending := false }
    let db2 := { db with closedBucket := some (aput closed chanID s2) }
    (pruneLinkNodeM db2 chanSummary.remotePub, none)

/-- Delete the open-channel leaf for `key` under `(pub, chain)` and any
parent bucket this leaves empty. -/
def deleteOpenLeaf (ob : OpenBucket) (pub chain key : Bytes) : OpenBucket :=
  (ob.map fun pr =>
    if pr.1 = pub then
      (pr.1, (pr.2.map fun c =>
        if c.1 = chain then (c.1, aerase c.2 key) else c).filter
          fun c => decide (¬ c.2 = []))
    else pr).filter fun pr => decide (¬ pr.2 = [])

/-- Modelled from the spec (§4.5 `AbandonChannel` / §3 lifecycle;
`OpenChannel.CloseChannel` lives in `channel.go`, outside `src/`):
atomically write the close summary into the closed bucket under the
channel's outpoint key, delete the open-channel leaf (and empty
parents), and conditionally prune the peer's link node. -/
def closeChannelM (db : ChanDB) (ch : ChanRecord) (summary : Summary) :
    ChanDB × Option Err :=
  let key := serOutpoint ch.fundingOutpoint
  let ob := db.openBucket.getD []
  let ob2 := deleteOpenLeaf ob ch.identityPub ch.chainHash key
  let closed := db.closedBucket.getD []
  let db2 := { db with
    openBucket := some ob2,
    closedBucket := some (aput closed key summary) }
  (pruneLinkNodeM db2 ch.identityPub, none)

/-- Well-formedness of the open-channel tree, per the spec's data-model
invariants (§3): peer keys are 33-byte serialized public keys; every
leaf record sits under its own identity key and chain hash with its
serialized funding outpoint as leaf key; and the funding outpoint is the
single source of identity — a leaf key determines its peer and chain
location. -/
def WFOpen (ob : OpenBucket) : Prop :=
  (∀ pr ∈ ob, pr.1.length = 33) ∧
  (∀ pr ∈ ob, ∀ c ∈ pr.2, ∀ e ∈ c.2,
    e.2.identityPub = pr.1 ∧ e.2.chainHash = c.1 ∧
    e.1 = serOutpoint e.2.fundingOutpoint) ∧
  (∀ pr1 ∈ ob, ∀ c1 ∈ pr1.2, ∀ e1 ∈ c1.2,
    ∀ pr2 ∈ ob, ∀ c2 ∈ pr2.2, ∀ e2 ∈ c2.2,
      e1.1 = e2.1 → pr1.1 = pr2.1 ∧ c1.1 = c2.1)

instance (ob : OpenBucket) : Decidable (WFOpen ob) := by
  unfold WFOpen; infer_instance

/-- The close summary synthesized by `AbandonChannel` (db.go lines
1126–1138): type `Abandoned`, `Pending = false`, close height
`bestHeight`, remaining fields copied from the open channel. -/
def abandonSummaryOf (chanPoint : OutPoint) (dbChan : ChanRecord)
    (bestHeight : Nat) : Summary :=
  { closeType := .abandoned
    chanPoint := serOutpoint chanPoint
    chainHash := dbChan.chainHash
    closeHeight := bestHeight
    remotePub := dbChan.identityPub
    capacity := dbChan.capacity
    settledBalance := dbChan.localBalance
    shortChanID := dbChan.shortChanID
    isPending := false }

/-- `AbandonChannel` (db.go lines 1101–1143): look up the open channel;
if it is gone but a closed-channel entry exists, succeed; if both are
missing, propagate the closed-lookup error; otherwise synthesize the
`Abandoned` close summary and close the channel with it. -/
def abandonChannel (db : ChanDB) (chanPoint : OutPoint) (bestHeight : Nat) :
    ChanDB × Option Err :=
  match fetchChannelM db chanPoint with
  | .error e =>
    if e = .errChannelNotFound then
      match fetchClosedChannelM db chanPoint with
      | .error closedErr => (db, some closedErr)
      | .ok _ => (db, none)
    else (db, some e)
  | .ok dbChan =>
    closeChannelM db dbChan (abandonSummaryOf chanPoint dbChan bestHeight)

/-! ### Closed-channel lookup by channel id (`FetchClosedChannelForID`,
db.go lines 770–814) and its cursor scan. -/

/-- Modelled from the spec (§4.5: "a channel id's first 30 bytes share a
prefix with any outpoint derived from it"; `lnwire.NewChanIDFromOutPoint`
lives outside `src/`): the channel id is the 32-byte txid with its last
two bytes XOR-ed with the big-endian low 16 bits of the output index. -/
def chanIdOf (op : OutPoint) : Bytes :=
  op.hash.take 30 ++
    [Nat.xor (op.hash.getD 30 0) (op.index / 256 % 256),
     Nat.xor (op.hash.getD 31 0) (op.index % 256)]

/-- Modelled from the spec (§4.5: "ask the channel id whether this
outpoint is its channel point"; `lnwire.ChannelID.IsChanPoint` lives
outside `src/`): the outpoint matches iff it derives this channel id. -/
def isChanPoint (cid : Bytes) (op : OutPoint) : Bool :=
  decide (chanIdOf op = cid)

/-- `cursor.Seek(k)` on a bucket whose entries are listed in ascending
key order: position at the first key not below `k`. -/
def cursorSeek {β : Type} (bucket : List (Bytes × β)) (k : Bytes) : List (Bytes × β) :=
  bucket.dropWhile fun p => decide (cmpBytes p.1 k = .lt)

/-- The scan loop of `FetchClosedChannelForID` (db.go lines 786–808),
starting from the cursor position: while the current key `op` satisfies
`bytes.Compare(cid[:30], op[:30]) <= 0`, decode the outpoint, skip it if
it does not derive `cid`, and return its summary otherwise; fall through
to `ErrClosedChannelNotFound`.  Both `op[:30]` slices fault
(`errSliceBounds`) on a key shorter than 30 bytes, as the Go slice
expression would. -/
def scanClosedForID (cid : Bytes) : List (Bytes × Summary) → Except Err Summary
  | [] => .error .errClosedChannelNotFound
  | (op, c) :: rest =>
    if op.length < 30 then .error .errSliceBounds
    else if cmpBytes (cid.take 30) (op.take 30) ≠ .gt then
      match readOutpointKey op with
      | none => .error .errCodec
      | some outPoint =>
        if isChanPoint cid outPoint then .ok c
        else scanClosedForID cid rest
    else .error .errClosedChannelNotFound

/-- `FetchClosedChannelForID` (db.go lines 770–814): seek the closed
bucket's cursor to the 30-byte shared prefix of the channel id and scan
for an outpoint deriving it. -/
def fetchClosedChannelForID (db : ChanDB) (cid : Bytes) : Except Err Summary :=
  match db.closedBucket with
  | none => .error .errClosedChannelNotFound
  | some closed => scanClosedForID cid (cursorSeek closed (cid.take 30))

/-! ### `RestoreChannelShells` (db.go lines 931–1040).

The graph-side state: the `edge-index-bucket` keyed by short channel id,
the edge policies keyed by `(short channel id, direction bit)`, the
graph's source node, plus the open-channel records and link nodes that
`syncNewChannel` maintains (flattened; their nesting is irrelevant
here). -/

/-- `lnwire.ChanUpdateDirection` (bit 0 of the channel flags). -/
def chanUpdateDirection : Nat := 1

/-- The fields of `ChannelEdgeInfo` populated by `RestoreChannelShells`. -/
structure ChannelEdgeInfo where
  channelID : Nat
  chainHash : Bytes
  channelPoint : OutPoint
  capacity : Nat
  nodeKey1Bytes : Bytes
  nodeKey2Bytes : Bytes
deriving DecidableEq, Repr

/-- The fields of `ChannelEdgePolicy` populated by `RestoreChannelShells`. -/
structure ChannelEdgePolicy where
  channelID : Nat
  lastUpdate : Nat
  channelFlags : Nat
deriving DecidableEq, Repr

/-- Graph-side state touched by shell restoration.  `sourcePub = none`
models a missing node bucket or source node (`ErrGraphNotFound`). -/
structure GraphDB where
  sourcePub : Option Bytes
  edgeIndex : List (Nat × ChannelEdgeInfo)
  policies : List ((Nat × Bool) × ChannelEdgePolicy)
  chans : List (Bytes × ChanRecord)
  linkNodes : List Bytes
deriving DecidableEq, Repr

/-- Modelled from the spec (§4.5 create/sync, §4.7 step 2;
`syncNewChannel` lives in `channel.go`, outside `src/`): idempotently
insert the open-channel record and ensure a link-node record for the
peer exists.  Touches neither the edge index, the policies, nor the
source node. -/
def syncNewChannelM (g : GraphDB) (channel : ChanRecord) : GraphDB :=
  let key := serOutpoint channel.fundingOutpoint
  let chans2 := match alookup g.chans key with
    | some _ => g.chans
    | none => aput g.chans key channel
  let links2 := if channel.identityPub ∈ g.linkNodes then g.linkNodes
    else channel.identityPub :: g.linkNodes
  { g with chans := chans2, linkNodes := links2 }

/-- Modelled from the spec (§4.7 step 4; `addChannelEdge` lives in
`graph.go`, outside `src/`): insert the edge info keyed by its channel
id, failing with `ErrEdgeAlreadyExist` when the key is taken. -/
def addChannelEdgeM (g : GraphDB) (e : ChannelEdgeInfo) : GraphDB × Option Err :=
  match alookup g.edgeIndex e.channelID with
  | some _ => (g, some .errEdgeAlreadyExist)
  | none => ({ g with edgeIndex := aput g.edgeIndex e.channelID e }, none)

/-- Modelled from the spec (§4.7 step 5; `updateEdgePolicy` lives in
`graph.go`, outside `src/`): upsert the policy under
`(channel id, direction bit)`. -/
def updateEdgePolicyM (g : GraphDB) (p : ChannelEdgePolicy) : GraphDB :=
  { g with policies := aput g.policies (p.channelID, p.channelFlags % 2 = 1) p }

/-- The edge-info shell built at db.go lines 969–997: `node1` is
whichever of the source key and the peer key compares smaller
(`bytes.Compare(...) == -1`), `node2` the other. -/
def restoredEdgeInfo (selfPub : Bytes) (channel : ChanRecord) : ChannelEdgeInfo :=
  let chanPeer := channel.identityPub
  let selfIsSmaller := decide (cmpBytes selfPub chanPeer = .lt)
  { channelID := channel.shortChanID
    chainHash := channel.chainHash
    channelPoint := channel.fundingOutpoint
    capacity := channel.capacity
    nodeKey1Bytes := if selfIsSmaller then selfPub else chanPeer
    nodeKey2Bytes := if selfIsSmaller then chanPeer else selfPub }

/-- The edge-policy shell built at db.go lines 1008–1018: flags start at
zero and `ChanUpdateDirection` is OR-ed in exactly when the source key
is not the smaller one. -/
def restoredEdgePolicy (now : Nat) (selfPub : Bytes) (channel : ChanRecord) :
    ChannelEdgePolicy :=
  let selfIsSmaller := decide (cmpBytes selfPub channel.identityPub = .lt)
  { channelID := channel.shortChanID
    lastUpdate := now
    channelFlags := if selfIsSmaller then 0 else Nat.lor 0 chanUpdateDirection }

/-- The per-shell body of `RestoreChannelShells` (db.go lines 940–1026):
OR `ChanStatusRestored` into the status, sync the channel and link node,
read the graph's source node, insert the edge info shell (tolerating
`ErrEdgeAlreadyExist`), and upsert the policy shell. -/
def restoreOneShell (now : Nat) (g : GraphDB) (shell : ChanRecord) :
    Except Err GraphDB :=
  let channel := { shell with chanStatus := shell.chanStatus ||| chanStatusRestored }
  let g1 := syncNewChannelM g channel
  match g1.sourcePub with
  | none => .error .errGraphNotFound
  | some selfPub =>
    let edgeInfo := restoredEdgeInfo selfPub channel
    let afterEdge : Except Err GraphDB :=
      match addChannelEdgeM g1 edgeInfo with
      | (g2, none) => .ok g2
      | (g2, some .errEdgeAlreadyExist) => .ok g2
      | (_, some e) => .error e
    match afterEdge with
    | .error e => .error e
    | .ok g2 => .ok (updateEdgePolicyM g2 (restoredEdgePolicy now selfPub channel))

/-- The shell loop of `RestoreChannelShells`, threading the state and
the accumulated `chansRestored` ids. -/
def restoreLoop (now : Nat) :
    GraphDB → List Nat → List ChanRecord → Except Err (GraphDB × List Nat)
  | g, acc, [] => .ok (g, acc)
  | g, acc, shell :: rest =>
    match restoreOneShell now g shell with
    | .error e => .error e
    | .ok g2 => restoreLoop now g2 (acc ++ [shell.shortChanID]) rest

/-- `RestoreChannelShells` (db.go lines 931–1040): process the shells in
order inside one transaction, collecting the restored channel ids; any
error aborts the whole transaction (the caller keeps the old state). -/
def restoreChannelShells (now : Nat) (g : GraphDB) (shells : List ChanRecord) :
    Except Err (GraphDB × List Nat) :=
  restoreLoop now g [] shells

/-! ### Concrete states used by witnesses and counterexamples. -/

/-- A three-slot registered version list over `Nat`-valued bucket data:
the genesis slot is `nil`, versions 1 and 2 carry real migrations. -/
def exVersions : List (VersionEntry Nat) :=
  [⟨0, none⟩, ⟨1, some fun n => .ok (n + 1)⟩, ⟨2, some fun n => .ok (n * 10)⟩]

/-- A file in which every §6 top-level bucket exists (the root-level
`edge-index-bucket` does not, as in any really created file). -/
def exTopAll : TopLevel :=
  ⟨some 1, some 2, some 3, some 4, some 5, some 6, some 7, some 8, none,
    some 9, some 10⟩

/-- An outpoint whose txid ends in `00 01` with output index 1. -/
def c6opA : OutPoint := ⟨List.replicate 30 0 ++ [0, 1], 1⟩

/-- An outpoint with the all-zero txid and output index 0; it derives
the same channel id as `c6opA`. -/
def c6opB : OutPoint := ⟨List.replicate 32 0, 0⟩

/-- A third outpoint, distinct from the others. -/
def w5opC : OutPoint := ⟨List.replicate 32 1, 0⟩

def c6sA : Summary := ⟨.remoteForceClose, serOutpoint c6opA, [], 100, [2], 5, 3, 9, true⟩

def c6sB : Summary := ⟨.remoteForceClose, serOutpoint c6opB, [], 200, [2], 5, 3, 9, true⟩

/-- A closed bucket holding both colliding outpoints, in ascending key
order, with distinct summaries. -/
def c6closed : List (Bytes × Summary) := [(serOutpoint c6opB, c6sB), (serOutpoint c6opA, c6sA)]

def c6db : ChanDB := ⟨none, none, some c6closed⟩

/-- A closed bucket holding only `c6opA`, so its channel id determines
a unique stored outpoint. -/
def c6dbU : ChanDB := ⟨none, none, some [(serOutpoint c6opA, c6sA)]⟩

def w5chanOpen : ChanRecord := ⟨[2], [9], c6opB, false, 0, 5, 3, 1⟩

def w5chanPending : ChanRecord := ⟨[2], [9], c6opA, true, 0, 5, 3, 2⟩

def w5chanWaiting : ChanRecord := ⟨[2], [9], w5opC, false, 1, 5, 3, 3⟩

/-- One peer with a fully-open, a pending, and a waiting-close channel. -/
def w5db : ChanDB :=
  ⟨some [([2], [([9], [(serOutpoint c6opB, w5chanOpen),
                       (serOutpoint c6opA, w5chanPending),
                       (serOutpoint w5opC, w5chanWaiting)])])],
   some [([2], [])], none⟩

def w4s : Summary := ⟨.remoteForceClose, serOutpoint c6opA, [], 50, [2], 5, 3, 9, true⟩

/-- A pending close summary for a peer with no remaining open channels. -/
def w4db : ChanDB := ⟨some [], some [([2], [7])], some [(serOutpoint c6opA, w4s)]⟩

/-- A 33-byte peer key. -/
def w7pub : Bytes := 2 :: List.replicate 32 7

def w7chan : ChanRecord := ⟨w7pub, [9], c6opA, false, 0, 5, 3, 9⟩

/-- A well-formed open tree holding exactly one channel. -/
def w7db : ChanDB :=
  ⟨some [(w7pub, [([9], [(serOutpoint c6opA, w7chan)])])],
   some [(w7pub, [1])], some []⟩

/-- A graph whose source node key is byte-wise below the shell's peer key. -/
def w8g : GraphDB := ⟨some [2, 0], [], [], [], []⟩

def w8shell : ChanRecord := ⟨[2, 255], [7], c6opA, false, 0, 10, 4, 42⟩

/-- The state produced by restoring `w8shell` into `w8g`. -/
def w8result : GraphDB :=
  ⟨some [2, 0],
   [(42, ⟨42, [7], c6opA, 10, [2, 0], [2, 255]⟩)],
   [((42, false), ⟨42, 1000, 0⟩)],
   [(serOutpoint c6opA, { w8shell with chanStatus := 8 })],
   [[2, 255]]⟩

/-! ## Helper lemmas -/

theorem wipeDelete_ok (b : Option Nat) : wipeDelete b = .ok none := by
  cases b <;> rfl

theorem applyMigrationList_ok_trace {α : Type} :
    ∀ (ms : List (VersionEntry α)) (a a2 : α) (tr : List Nat),
      applyMigrationList ms a = (.ok a2, tr) →
      tr = (ms.filter fun e => e.migration.isSome).map (·.number) := by
  intro ms
  induction ms with
  | nil =>
    intro a a2 tr h
    simp [applyMigrationList] at h
    simp [h.2]
  | cons v rest ih =>
    intro a a2 tr h
    cases hm : v.migration with
    | none =>
      simp [applyMigrationList, hm] at h
      simpa [List.filter_cons, hm] using ih a a2 tr h
    | some m =>
      cases hma : m a with
      | error e => simp [applyMigrationList, hm, hma] at h
      | ok a1 =>
        simp [applyMigrationList, hm, hma] at h
        obtain ⟨h1, h2⟩ := h
        cases hrec : applyMigrationList rest a1 with
        | mk r tr2 =>
          rw [hrec] at h1 h2
          simp only [Prod.fst, Prod.snd] at h1 h2
          have := ih a1 a2 tr2 (by rw [hrec, h1])
          rw [← h2, List.filter_cons]
          simp [hm, this]

/-! ## C9: `Wipe` -/

/-- C9 (counterexample): on a file where every §6 top-level bucket
exists, `Wipe` succeeds but leaves `fwd-log-bucket` and `fwd-packages`
in place, so it does not delete every top-level bucket the claim
enumerates. -/
theorem c9_counterexample :
    (Wipe exTopAll).1.fwdLog = some 3 ∧ (Wipe exTopAll).1.fwdPackages = some 4 ∧
    ¬ (Wipe exTopAll).1.fwdLog = none ∧ (Wipe exTopAll).2 = none := by
  decide

/-- C9 (amended): `Wipe`, in a single transaction, deletes the
top-level buckets `open-chan-bucket`, `closed-channel-bucket`,
`invoice-bucket`, `node-info-bucket`, `node-bucket`, `edge-bucket`, a
root-level `edge-index-bucket`, and `graph-meta-bucket`, treating a
missing bucket as success, while leaving `fwd-log-bucket`,
`fwd-packages`, the meta record, and the file in place. -/
theorem c9_wipe_amended (s : TopLevel) :
    Wipe s =
      ({ s with
          openChan := none
          closedChan := none
          invoice := none
          nodeInfo := none
          nodes := none
          edges := none
          edgeIndexTop := none
          graphMeta := none }, none) := by
  simp [Wipe, wipeTx, wipeDelete_ok, bind, Except.bind, pure, Except.pure]

/-! ## C2: version reversion refused -/

/-- C2: for every stored meta version strictly greater than the latest
registered version, `Open` fails with `ErrDBReversion`, applies no
migration (empty trace), and leaves the file state unchanged. -/
theorem c2_open_reversion {α : Type} (versions : List (VersionEntry α))
    (s : MigState α) (init : α) (k : Nat)
    (hmeta : s.meta = some k) (hgt : getLatestDBVersion versions < k) :
    openDB versions (some s) init = (s, some .errDBReversion, []) := by
  unfold openDB syncVersions
  simp [hmeta, hgt]

/-- C2 (witness): a file pre-written with version 99 against latest
version 2. -/
theorem c2_witness :
    openDB exVersions (some ⟨some 99, 7⟩) 0 = (⟨some 99, 7⟩, some .errDBReversion, []) :=
  c2_open_reversion exVersions ⟨some 99, 7⟩ 0 99 rfl (by decide)

/-! ## C3: open with no meta record -/

/-- C3 (counterexample): opening an existing file that has no meta
record is treated as a version-0 open: with `exVersions` registered the
engine invokes migrations 1 and 2 (trace `[1, 2]`), refuting the claim
that no migrations run whenever no meta record exists on open. -/
theorem c3_counterexample :
    openDB exVersions (some ⟨none, 7⟩) 0 = (⟨some 2, 80⟩, none, [1, 2]) ∧
    ¬ ([1, 2] : List Nat) = [] := by
  decide

/-- C3 (amended): when the database file is absent on open (so no meta
record exists), the engine creates it, writes the latest known schema
version, and runs no migrations; an existing file that merely lacks a
meta record is instead treated as version 0 and migrated, producing the
same error and migration trace as a version-0 open. -/
theorem c3_open_fresh_amended {α : Type} (versions : List (VersionEntry α)) (init : α) :
    openDB versions none init =
      ({ meta := some (getLatestDBVersion versions), data := init }, none, []) ∧
    (∀ a : α, 0 < getLatestDBVersion versions →
      (openDB versions (some ⟨none, a⟩) init).2 =
        (syncVersions versions ⟨some 0, a⟩).2) := by
  constructor
  · unfold openDB createChannelDBState syncVersions
    simp
  · intro a h
    unfold openDB syncVersions
    have hn0 : ¬ getLatestDBVersion versions < 0 := Nat.not_lt_zero _
    have hne0 : ¬ ((0 : Nat) = getLatestDBVersion versions) := by omega
    simp only [Option.getD_some, Option.getD_none, if_neg hn0, if_neg hne0]
    cases happ : applyMigrationList (getMigrationsToApply versions 0) a with
    | mk r tr => cases r <;> simp

/-- C3 (amended, witness): the missing-meta branch evaluated on
`exVersions`. -/
theorem c3_amended_witness :
    (openDB exVersions (some ⟨none, (7 : Nat)⟩) 0).2 =
      (syncVersions exVersions ⟨some 0, 7⟩).2 :=
  (c3_open_fresh_amended exVersions 0).2 7 (by decide)

/-! ## C1: migration selection, order, atomicity -/

/-- C1: on open with stored version `k` strictly below the latest
registered version, `syncVersions` runs exactly the registered
migrations whose target version is strictly greater than `k` (the `nil`
genesis slot is skipped), in ascending version order, and then writes
the latest version — all in the one transaction whose rollback
semantics the result encodes; if a migration errors, the transaction
aborts and the state (in particular the stored version) is unchanged. -/
theorem c1_syncVersions_migrates {α : Type} (versions : List (VersionEntry α))
    (s : MigState α) (k : Nat)
    (hsorted : versions.Pairwise fun u v => u.number < v.number)
    (hmeta : s.meta = some k)
    (hlt : k < getLatestDBVersion versions) :
    (∀ (a2 : α) (tr : List Nat),
      applyMigrationList (getMigrationsToApply versions k) s.data = (.ok a2, tr) →
      syncVersions versions s =
        ({ meta := some (getLatestDBVersion versions), data := a2 }, none, tr) ∧
      tr = ((getMigrationsToApply versions k).filter
          fun e => e.migration.isSome).map (·.number) ∧
      tr.Pairwise (· < ·)) ∧
    (∀ (e : Err) (tr : List Nat),
      applyMigrationList (getMigrationsToApply versions k) s.data = (.error e, tr) →
      syncVersions versions s = (s, some e, tr)) := by
  have hne : ¬ (k = getLatestDBVersion versions) := Nat.ne_of_lt hlt
  have hnl : ¬ (getLatestDBVersion versions < k) := Nat.not_lt.2 (le_of_lt hlt)
  constructor
  · intro a2 tr h
    refine ⟨?_, ?_, ?_⟩
    · unfold syncVersions
      simp only [hmeta, Option.getD_some, if_neg hnl, if_neg hne]
      rw [h]
    · exact applyMigrationList_ok_trace _ _ _ _ h
    · have h1 : List.Sublist ((getMigrationsToApply versions k).filter
          fun e => e.migration.isSome) versions :=
        (List.filter_sublist _).trans (List.filter_sublist _)
      have h2 := List.Pairwise.sublist h1 hsorted
      rw [applyMigrationList_ok_trace _ _ _ _ h, List.pairwise_map]
      exact h2
  · intro e tr h
    unfold syncVersions
    simp only [hmeta, Option.getD_some, if_neg hnl, if_neg hne]
    rw [h]

/-- C1 (witness): stored version 0 against registered versions
`[0 (nil), 1, 2]`: migrations 1 then 2 run (in ascending order) and the
meta version becomes 2. -/
theorem c1_witness :
    syncVersions exVersions ⟨some 0, (7 : Nat)⟩ = (⟨some 2, 80⟩, none, [1, 2]) ∧
    ([1, 2] : List Nat).Pairwise (· < ·) := by
  have h := (c1_syncVersions_migrates exVersions ⟨some 0, 7⟩ 0 (by decide) rfl
    (by decide)).1 80 [1, 2] (by decide)
  exact ⟨h.1, h.2.2⟩

/-! ## C5: the three fetch filters partition `FetchAllChannels` -/

theorem fetchChannels_ok_mem {db : ChanDB} {p w : Bool} {cs : List ChanRecord}
    (h : fetchChannels db p w = .ok cs) :
    ∀ c ∈ cs, c.isPending = p ∧ (decide (¬ c.chanStatus = chanStatusDefault)) = w := by
  intro c hc
  unfold fetchChannels at h
  cases hob : db.openBucket with
  | none => rw [hob] at h; exact absurd h (by simp)
  | some ob =>
    rw [hob] at h
    cases hni : db.nodeInfo with
    | none => rw [hni] at h; exact absurd h (by simp)
    | some peers =>
      rw [hni] at h
      simp only [Except.ok.injEq] at h
      subst h
      simp only [List.mem_flatMap] at hc
      obtain ⟨pr, _, hc⟩ := hc
      cases halo : alookup ob pr.1 with
      | none => rw [halo] at hc; simp at hc
      | some chains =>
        rw [halo] at hc
        simp only [List.mem_flatMap] at hc
        obtain ⟨cb, _, hc⟩ := hc
        rw [List.mem_filter] at hc
        have h2 := hc.2
        unfold chanFilter at h2
        simp only [Bool.and_eq_true, decide_eq_true_eq] at h2
        exact h2

/-- C5: for every database state on which the four queries succeed, the
channel lists returned by `FetchAllOpenChannels` (pending=false,
waiting=false), `FetchPendingChannels` (pending=true, waiting=false)
and `FetchWaitingCloseChannels` (waiting=true, either pending value)
are pairwise disjoint, and their union is exactly the list returned by
`FetchAllChannels`. -/
theorem c5_filters_partition (db : ChanDB)
    (opens pendings waiting all : List ChanRecord)
    (ho : fetchAllOpenChannels db = .ok opens)
    (hp : fetchPendingChannels db = .ok pendings)
    (hw : fetchWaitingCloseChannels db = .ok waiting)
    (ha : fetchAllChannels db = .ok all) :
    (∀ c, ¬ (c ∈ opens ∧ c ∈ pendings)) ∧
    (∀ c, ¬ (c ∈ opens ∧ c ∈ waiting)) ∧
    (∀ c, ¬ (c ∈ pendings ∧ c ∈ waiting)) ∧
    (∀ c, c ∈ all ↔ (c ∈ opens ∨ c ∈ pendings ∨ c ∈ waiting)) := by
  have mo := fetchChannels_ok_mem ho
  have mp := fetchChannels_ok_mem hp
  have mw : ∀ c ∈ waiting, (decide (¬ c.chanStatus = chanStatusDefault)) = true := by
    unfold fetchWaitingCloseChannels at hw
    cases h1 : fetchChannels db false true with
    | error e => rw [h1] at hw; exact absurd hw (by simp [bind, Except.bind])
    | ok w1 =>
      rw [h1] at hw
      cases h2 : fetchChannels db true true with
      | error e => rw [h2] at hw; exact absurd hw (by simp [bind, Except.bind])
      | ok w2 =>
        rw [h2] at hw
        simp only [bind, Except.bind, pure, Except.pure, Except.ok.injEq] at hw
        subst hw
        intro c hc
        rcases List.mem_append.1 hc with hc1 | hc2
        · exact (fetchChannels_ok_mem h1 c hc1).2
        · exact (fetchChannels_ok_mem h2 c hc2).2
  have hall : all = opens ++ pendings ++ waiting := by
    unfold fetchAllChannels at ha
    rw [ho, hp, hw] at ha
    simp only [bind, Except.bind, pure, Except.pure, Except.ok.injEq] at ha
    exact ha.symm
  refine ⟨?_, ?_, ?_, ?_⟩
  · rintro c ⟨h1, h2⟩
    have := (mo c h1).1
    have := (mp c h2).1
    simp_all
  · rintro c ⟨h1, h2⟩
    have := (mo c h1).2
    have := mw c h2
    simp_all
  · rintro c ⟨h1, h2⟩
    have := (mp c h1).2
    have := mw c h2
    simp_all
  · intro c
    subst hall
    simp [List.mem_append, or_assoc]

/-- C5 (witness): one peer holding a fully-open, a pending, and a
waiting-close channel. -/
theorem c5_witness :
    (∀ c, ¬ (c ∈ [w5chanOpen] ∧ c ∈ [w5chanPending])) ∧
    (∀ c, ¬ (c ∈ [w5chanOpen] ∧ c ∈ [w5chanWaiting])) ∧
    (∀ c, ¬ (c ∈ [w5chanPending] ∧ c ∈ [w5chanWaiting])) ∧
    (∀ c, c ∈ [w5chanOpen, w5chanPending, w5chanWaiting] ↔
      (c ∈ [w5chanOpen] ∨ c ∈ [w5chanPending] ∨ c ∈ [w5chanWaiting])) :=
  c5_filters_partition w5db [w5chanOpen] [w5chanPending] [w5chanWaiting]
    [w5chanOpen, w5chanPending, w5chanWaiting]
    (by decide) (by decide) (by decide) (by decide)

/-! ## C4: `MarkChanFullyClosed` -/

theorem alookup_aput_self {κ β : Type} [DecidableEq κ] :
    ∀ (xs : List (κ × β)) (k : κ) (v : β), alookup (aput xs k v) k = some v := by
  intro xs k v
  induction xs with
  | nil => simp [aput, alookup, List.find?]
  | cons p rest ih =>
    by_cases hp : p.1 = k
    · simp [aput, hp, alookup, List.find?]
    · simpa [aput, hp, alookup, List.find?] using ih

/-- C4: `MarkChanFullyClosed(outpoint)` fails (and, by the transaction's
rollback, changes nothing) when no close-summary entry exists for the
outpoint; otherwise it returns, in the one committed state, the summary
overwritten with `pending = false`, the open tree untouched, and the
remote peer's link-node record deleted exactly when the peer has zero
open channels. -/
theorem c4_markChanFullyClosed (db : ChanDB) (op : OutPoint) :
    (alookup (db.closedBucket.getD []) (serOutpoint op) = none →
      markChanFullyClosed db op = (db, some .errNoCloseSummaryFound)) ∧
    (∀ s, alookup (db.closedBucket.getD []) (serOutpoint op) = some s →
      ∃ db2, markChanFullyClosed db op = (db2, none) ∧
        db2.openBucket = db.openBucket ∧
        db2.closedBucket = some (aput (db.closedBucket.getD []) (serOutpoint op)
          { s with isPending := false }) ∧
        alookup (db2.closedBucket.getD []) (serOutpoint op) =
          some { s with isPending := false } ∧
        (fetchOpenChannelsM db s.remotePub = [] →
          db2.nodeInfo = db.nodeInfo.map fun xs => aerase xs s.remotePub) ∧
        (¬ fetchOpenChannelsM db s.remotePub = [] →
          db2.nodeInfo = db.nodeInfo)) := by
  constructor
  · intro h
    simp only [markChanFullyClosed]
    rw [h]
  · intro s hs
    set dbMid : ChanDB := { db with closedBucket := some (aput (db.closedBucket.getD [])
        (serOutpoint op) { s with isPending := false }) } with hdbMid
    have hfo2 : fetchOpenChannelsM dbMid s.remotePub = fetchOpenChannelsM db s.remotePub := rfl
    have hob : (pruneLinkNodeM dbMid s.remotePub).openBucket = db.openBucket := by
      unfold pruneLinkNodeM deleteLinkNodeM
      split <;> rfl
    have hcb : (pruneLinkNodeM dbMid s.remotePub).closedBucket =
        some (aput (db.closedBucket.getD []) (serOutpoint op) { s with isPending := false }) := by
      unfold pruneLinkNodeM deleteLinkNodeM
      split <;> rfl
    refine ⟨pruneLinkNodeM dbMid s.remotePub, ?_, hob, hcb, ?_, ?_, ?_⟩
    · simp only [markChanFullyClosed]
      rw [hs]
    · rw [hcb]
      exact alookup_aput_self _ _ _
    · intro hz
      unfold pruneLinkNodeM
      rw [hfo2, hz]
      simp [deleteLinkNodeM]
    · intro hnz
      unfold pruneLinkNodeM
      rw [hfo2, if_pos (by simpa [List.length_pos] using hnz)]

/-- C4 (witness): a pending close summary for a peer with no remaining
open channels: the summary is overwritten with `pending = false` and
the link node is pruned. -/
theorem c4_witness :
    ∃ db2, markChanFullyClosed w4db c6opA = (db2, none) ∧
      alookup (db2.closedBucket.getD []) (serOutpoint c6opA) =
        some { w4s with isPending := false } ∧
      db2.nodeInfo = (w4db.nodeInfo).map fun xs => aerase xs w4s.remotePub := by
  obtain ⟨db2, h1, h2, h3, h4, h5, h6⟩ :=
    (c4_markChanFullyClosed w4db c6opA).2 w4s (by decide)
  exact ⟨db2, h1, h4, h5 (by decide)⟩

/-! ## Byte-comparison lemmas -/

theorem cmpBytes_eq_iff : ∀ a b : Bytes, cmpBytes a b = .eq ↔ a = b := by
  intro a
  induction a with
  | nil => intro b; cases b <;> simp [cmpBytes]
  | cons x as ih =>
    intro b
    cases b with
    | nil => simp [cmpBytes]
    | cons y bs =>
      simp only [cmpBytes]
      rcases Nat.lt_trichotomy x y with h | h | h
      · simp [if_pos h, List.cons.injEq, Nat.ne_of_lt h]
      · subst h
        simp [Nat.lt_irrefl, ih, List.cons.injEq]
      · simp [if_neg (Nat.lt_asymm h), if_pos h, List.cons.injEq,
          (Nat.ne_of_lt h).symm]

theorem cmpBytes_lt_iff_gt : ∀ a b : Bytes, cmpBytes a b = .lt ↔ cmpBytes b a = .gt := by
  intro a
  induction a with
  | nil => intro b; cases b <;> simp [cmpBytes]
  | cons x as ih =>
    intro b
    cases b with
    | nil => simp [cmpBytes]
    | cons y bs =>
      simp only [cmpBytes]
      rcases Nat.lt_trichotomy x y with h | h | h
      · simp [if_pos h, if_neg (Nat.lt_asymm h)]
      · subst h
        simp [Nat.lt_irrefl, ih]
      · simp [if_neg (Nat.lt_asymm h), if_pos h]

theorem cmpBytes_lt_trans :
    ∀ a b c : Bytes, cmpBytes a b = .lt → cmpBytes b c = .lt → cmpBytes a c = .lt := by
  intro a
  induction a with
  | nil =>
    intro b c h1 h2
    cases c with
    | nil =>
      cases b with
      | nil => simp [cmpBytes] at h1
      | cons y bs => simp [cmpBytes] at h2
    | cons z cs => simp [cmpBytes]
  | cons x as ih =>
    intro b c h1 h2
    cases b with
    | nil => simp [cmpBytes] at h1
    | cons y bs =>
      cases c with
      | nil => simp [cmpBytes] at h2
      | cons z cs =>
        simp only [cmpBytes] at h1 h2 ⊢
        by_cases hxy : x < y
        · by_cases hyz : y < z
          · rw [if_pos (Nat.lt_trans hxy hyz)]
          · by_cases hzy : z < y
            · simp only [if_neg hyz, if_pos hzy] at h2
              exact absurd h2 (by decide)
            · have hyzeq : y = z := by omega
              subst hyzeq
              rw [if_pos hxy]
        · by_cases hyx : y < x
          · simp only [if_neg hxy, if_pos hyx] at h1
            exact absurd h1 (by decide)
          · have hxyeq : x = y := by omega
            subst hxyeq
            simp only [if_neg hxy] at h1
            by_cases hxz : x < z
            · rw [if_pos hxz]
            · by_cases hzx : z < x
              · simp only [if_neg hxz, if_pos hzx] at h2
                exact absurd h2 (by decide)
              · have hxzeq : x = z := by omega
                subst hxzeq
                simp only [if_neg hxz] at h2 ⊢
                exact ih bs cs h1 h2

theorem mem_aput {κ β : Type} [DecidableEq κ] :
    ∀ (xs : List (κ × β)) (k : κ) (v : β) (x : κ × β),
      x ∈ aput xs k v → x ∈ xs ∨ x = (k, v) := by
  intro xs k v
  induction xs with
  | nil =>
    intro x hx
    simp [aput] at hx
    right
    exact hx
  | cons p rest ih =>
    intro x hx
    by_cases hp : p.1 = k
    · simp only [aput, if_pos hp] at hx
      rcases List.mem_cons.1 hx with h | h
      · right; exact h
      · left; exact List.mem_cons_of_mem _ h
    · simp only [aput, if_neg hp] at hx
      rcases List.mem_cons.1 hx with h | h
      · left; rw [h]; exact List.mem_cons_self _ _
      · rcases ih x h with h2 | h2
        · left; exact List.mem_cons_of_mem _ h2
        · right; exact h2

/-! ## C8: canonical edge ordering and direction bit on restore -/

theorem cmpBytes_lt_or_gt (a b : Bytes) (hne : ¬ b = a) :
    cmpBytes a b = .lt ∨ cmpBytes a b = .gt := by
  rcases ho : cmpBytes a b with _ | _ | _
  · exact .inl rfl
  · exact absurd ((cmpBytes_eq_iff _ _).1 ho).symm hne
  · exact .inr rfl

theorem restoredEdgeInfo_canonical (selfPub : Bytes) (channel : ChanRecord)
    (hne : ¬ channel.identityPub = selfPub) :
    (((restoredEdgeInfo selfPub channel).nodeKey1Bytes = selfPub ∧
      (restoredEdgeInfo selfPub channel).nodeKey2Bytes = channel.identityPub) ∨
     ((restoredEdgeInfo selfPub channel).nodeKey1Bytes = channel.identityPub ∧
      (restoredEdgeInfo selfPub channel).nodeKey2Bytes = selfPub)) ∧
    cmpBytes (restoredEdgeInfo selfPub channel).nodeKey1Bytes
      (restoredEdgeInfo selfPub channel).nodeKey2Bytes = .lt := by
  rcases cmpBytes_lt_or_gt selfPub channel.identityPub hne with h | h
  · simp only [restoredEdgeInfo]
    rw [h]
    simp only [decide_eq_true_eq, if_true]
    simp [h]
  · simp only [restoredEdgeInfo]
    rw [h]
    simp only [decide_eq_true_eq]
    rw [if_neg (by decide : ¬ (Ordering.gt = Ordering.lt))]
    simp [(cmpBytes_lt_iff_gt channel.identityPub selfPub).2 h]

theorem restoredEdgePolicy_direction (now : Nat) (selfPub : Bytes)
    (channel : ChanRecord) (hne : ¬ channel.identityPub = selfPub) :
    ((restoredEdgePolicy now selfPub channel).channelFlags % 2 = 1 ↔
      cmpBytes channel.identityPub selfPub = .lt) := by
  rcases cmpBytes_lt_or_gt selfPub channel.identityPub hne with h | h
  · have hgt : cmpBytes channel.identityPub selfPub = .gt :=
      (cmpBytes_lt_iff_gt _ _).1 h
    simp only [restoredEdgePolicy]
    rw [h]
    simp only [decide_eq_true_eq, if_true]
    constructor
    · intro hh; exact absurd hh (by decide)
    · intro hh; rw [hh] at hgt; exact absurd hgt (by decide)
  · have hlt : cmpBytes channel.identityPub selfPub = .lt :=
      (cmpBytes_lt_iff_gt _ _).2 h
    simp only [restoredEdgePolicy]
    rw [h]
    simp only [decide_eq_true_eq]
    rw [if_neg (by decide : ¬ (Ordering.gt = Ordering.lt))]
    have hl1 : Nat.lor 0 chanUpdateDirection % 2 = 1 := by decide
    simp [hl1, hlt]

theorem restoredEdgeInfo_channelID (selfPub : Bytes) (channel : ChanRecord) :
    (restoredEdgeInfo selfPub channel).channelID = channel.shortChanID := rfl

theorem restoreOneShell_spec {now : Nat} {g : GraphDB} {shell : ChanRecord}
    {g2 : GraphDB} (h : restoreOneShell now g shell = .ok g2) :
    g2.sourcePub = g.sourcePub ∧
    ∃ selfPub, g.sourcePub = some selfPub ∧
      (∀ e ∈ g2.edgeIndex, e ∈ g.edgeIndex ∨
        e.2 = restoredEdgeInfo selfPub shell) ∧
      (∀ p ∈ g2.policies, p ∈ g.policies ∨
        p.2 = restoredEdgePolicy now selfPub shell) := by
  unfold restoreOneShell at h
  simp only [syncNewChannelM] at h
  cases hsp : g.sourcePub with
  | none => rw [hsp] at h; exact absurd h (by simp)
  | some selfPub =>
    rw [hsp] at h
    simp only [addChannelEdgeM, restoredEdgeInfo_channelID] at h
    cases hae : alookup g.edgeIndex shell.shortChanID with
    | some e0 =>
      rw [hae] at h
      simp only [Except.ok.injEq] at h
      subst h
      refine ⟨rfl, selfPub, rfl, ?_, ?_⟩
      · intro e he
        simp only [updateEdgePolicyM] at he
        exact .inl he
      · intro p hp
        simp only [updateEdgePolicyM] at hp
        rcases mem_aput _ _ _ _ hp with h2 | h2
        · exact .inl h2
        · right
          subst h2
          rfl
    | none =>
      rw [hae] at h
      simp only [Except.ok.injEq] at h
      subst h
      refine ⟨rfl, selfPub, rfl, ?_, ?_⟩
      · intro e he
        simp only [updateEdgePolicyM] at he
        rcases mem_aput _ _ _ _ he with h2 | h2
        · exact .inl h2
        · right
          subst h2
          rfl
      · intro p hp
        simp only [updateEdgePolicyM] at hp
        rcases mem_aput _ _ _ _ hp with h2 | h2
        · exact .inl h2
        · right
          subst h2
          rfl

theorem restoreLoop_spec (now : Nat) :
    ∀ (shells : List ChanRecord) (g : GraphDB) (acc : List Nat) (g2 : GraphDB)
      (ids : List Nat) (selfPub : Bytes),
      g.sourcePub = some selfPub →
      restoreLoop now g acc shells = .ok (g2, ids) →
      g2.sourcePub = some selfPub ∧
      (∀ e ∈ g2.edgeIndex, e ∈ g.edgeIndex ∨ ∃ shell ∈ shells,
        e.2 = restoredEdgeInfo selfPub shell) ∧
      (∀ p ∈ g2.policies, p ∈ g.policies ∨ ∃ shell ∈ shells,
        p.2 = restoredEdgePolicy now selfPub shell) := by
  intro shells
  induction shells with
  | nil =>
    intro g acc g2 ids selfPub hsrc h
    simp only [restoreLoop, Except.ok.injEq, Prod.mk.injEq] at h
    obtain ⟨h1, _⟩ := h
    subst h1
    exact ⟨hsrc, fun e he => .inl he, fun p hp => .inl hp⟩
  | cons shell rest ih =>
    intro g acc g2 ids selfPub hsrc h
    simp only [restoreLoop] at h
    cases hone : restoreOneShell now g shell with
    | error e => rw [hone] at h; exact absurd h (by simp)
    | ok gmid =>
      rw [hone] at h
      obtain ⟨hsp1, selfPub1, hsrc1, hedge1, hpol1⟩ := restoreOneShell_spec hone
      rw [hsrc] at hsrc1
      injection hsrc1 with hsame
      subst hsame
      have ihr := ih gmid (acc ++ [shell.shortChanID]) g2 ids selfPub
        (by rw [hsp1, hsrc]) h
      refine ⟨ihr.1, ?_, ?_⟩
      · intro e he
        rcases ihr.2.1 e he with h1 | ⟨sh, hsh, h2⟩
        · rcases hedge1 e h1 with h3 | h3
          · exact .inl h3
          · exact .inr ⟨shell, List.mem_cons_self _ _, h3⟩
        · exact .inr ⟨sh, List.mem_cons_of_mem _ hsh, h2⟩
      · intro p hp
        rcases ihr.2.2 p hp with h1 | ⟨sh, hsh, h2⟩
        · rcases hpol1 p h1 with h3 | h3
          · exact .inl h3
          · exact .inr ⟨shell, List.mem_cons_self _ _, h3⟩
        · exact .inr ⟨sh, List.mem_cons_of_mem _ hsh, h2⟩

/-- C8: when `RestoreChannelShells` succeeds, every edge-info record it
wrote has `node1` equal to the byte-wise smaller of the local key and
the shell peer's key and `node2` the larger (`node1 < node2`), and
every policy it upserted has its direction bit (bit 0 of the channel
flags) set exactly when the peer key is byte-wise smaller than the
local key, i.e. when the local node is `node2`. -/
theorem c8_restore_edge_canonical (now : Nat) (g g2 : GraphDB)
    (shells : List ChanRecord) (ids : List Nat) (selfPub : Bytes)
    (hsrc : g.sourcePub = some selfPub)
    (hne : ∀ shell ∈ shells, ¬ shell.identityPub = selfPub)
    (hok : restoreChannelShells now g shells = .ok (g2, ids)) :
    (∀ e ∈ g2.edgeIndex, e ∈ g.edgeIndex ∨
      ∃ shell ∈ shells,
        ((e.2.nodeKey1Bytes = selfPub ∧ e.2.nodeKey2Bytes = shell.identityPub) ∨
         (e.2.nodeKey1Bytes = shell.identityPub ∧ e.2.nodeKey2Bytes = selfPub)) ∧
        cmpBytes e.2.nodeKey1Bytes e.2.nodeKey2Bytes = .lt) ∧
    (∀ p ∈ g2.policies, p ∈ g.policies ∨
      ∃ shell ∈ shells,
        (p.2.channelFlags % 2 = 1 ↔ cmpBytes shell.identityPub selfPub = .lt)) := by
  unfold restoreChannelShells at hok
  obtain ⟨_, hedges, hpols⟩ := restoreLoop_spec now shells g [] g2 ids selfPub hsrc hok
  constructor
  · intro e he
    rcases hedges e he with h1 | ⟨sh, hsh, h2⟩
    · exact .inl h1
    · right
      refine ⟨sh, hsh, ?_⟩
      rw [h2]
      exact restoredEdgeInfo_canonical selfPub sh (hne sh hsh)
  · intro p hp
    rcases hpols p hp with h1 | ⟨sh, hsh, h2⟩
    · exact .inl h1
    · right
      refine ⟨sh, hsh, ?_⟩
      rw [h2]
      exact restoredEdgePolicy_direction now selfPub sh (hne sh hsh)

/-- C8 (witness): restoring one shell whose peer key `[2, 255]` is above
the local key `[2, 0]`. -/
theorem c8_witness :
    (∀ e ∈ w8result.edgeIndex, e ∈ w8g.edgeIndex ∨
      ∃ shell ∈ [w8shell],
        ((e.2.nodeKey1Bytes = [2, 0] ∧ e.2.nodeKey2Bytes = shell.identityPub) ∨
         (e.2.nodeKey1Bytes = shell.identityPub ∧ e.2.nodeKey2Bytes = [2, 0])) ∧
        cmpBytes e.2.nodeKey1Bytes e.2.nodeKey2Bytes = .lt) ∧
    (∀ p ∈ w8result.policies, p ∈ w8g.policies ∨
      ∃ shell ∈ [w8shell],
        (p.2.channelFlags % 2 = 1 ↔ cmpBytes shell.identityPub [2, 0] = .lt)) :=
  c8_restore_edge_canonical 1000 w8g w8result [w8shell] [42] [2, 0] rfl
    (by decide) (by decide)

/-! ## C7: `AbandonChannel` -/

theorem alookup_eq_some_mem {κ β : Type} [DecidableEq κ] {xs : List (κ × β)}
    {k : κ} {v : β} (h : alookup xs k = some v) : (k, v) ∈ xs := by
  unfold alookup at h
  cases hf : xs.find? (fun p => decide (p.1 = k)) with
  | none => rw [hf] at h; simp at h
  | some p =>
    rw [hf] at h
    simp only [Option.map_some', Option.some.injEq] at h
    have hm := List.mem_of_find?_eq_some hf
    have hpk := List.find?_some hf
    simp only [decide_eq_true_eq] at hpk
    have hp : p = (k, v) := by
      cases p
      simp_all
    rw [← hp]
    exact hm

theorem alookup_eq_none_iff {κ β : Type} [DecidableEq κ] (xs : List (κ × β)) (k : κ) :
    alookup xs k = none ↔ ∀ p ∈ xs, ¬ p.1 = k := by
  unfold alookup
  rw [Option.map_eq_none', List.find?_eq_none]
  constructor
  · intro h p hp
    have := h p hp
    simpa using this
  · intro h p hp
    simpa using h p hp

theorem alookup_aerase_self {κ β : Type} [DecidableEq κ] (xs : List (κ × β)) (k : κ) :
    alookup (aerase xs k) k = none := by
  rw [alookup_eq_none_iff]
  intro p hp
  unfold aerase at hp
  rw [List.mem_filter] at hp
  simpa using hp.2

theorem aput_filter_count {κ β : Type} [DecidableEq κ] :
    ∀ (xs : List (κ × β)) (k : κ) (v : β), (xs.map (·.1)).Nodup →
      ((aput xs k v).filter fun p => decide (p.1 = k)).length = 1 := by
  intro xs k v
  induction xs with
  | nil => intro _; simp [aput]
  | cons p rest ih =>
    intro hnd
    simp only [List.map_cons, List.nodup_cons] at hnd
    obtain ⟨hnotin, hnd2⟩ := hnd
    by_cases hp : p.1 = k
    · simp only [aput, if_pos hp]
      have hrest : rest.filter (fun q => decide (q.1 = k)) = [] := by
        rw [List.filter_eq_nil_iff]
        intro q hq
        simp only [decide_eq_true_eq]
        intro hqk
        exact hnotin (hp ▸ hqk ▸ List.mem_map_of_mem (·.1) hq)
      simp [List.filter_cons, hrest]
    · simp only [aput, if_neg hp]
      simp only [List.filter_cons, decide_eq_true_eq, hp, if_false]
      exact ih hnd2

theorem innerFold_some {key : Bytes} :
    ∀ (chains : NodeChanBucket) (acc : Option ChanRecord) (ch : ChanRecord),
      chains.foldl
        (fun acc2 c =>
          match alookup c.2 key with
          | some ch2 => some ch2
          | none => acc2)
        acc = some ch →
      acc = some ch ∨ ∃ c ∈ chains, alookup c.2 key = some ch := by
  intro chains
  induction chains with
  | nil => intro acc ch h; exact .inl h
  | cons c rest ih =>
    intro acc ch h
    simp only [List.foldl_cons] at h
    rcases ih _ ch h with h1 | ⟨c2, hc2, h2⟩
    · cases hal : alookup c.2 key with
      | some ch2 =>
        simp only [hal] at h1
        right
        refine ⟨c, List.mem_cons_self _ _, ?_⟩
        rw [hal, h1]
      | none =>
        simp only [hal] at h1
        exact .inl h1
    · exact .inr ⟨c2, List.mem_cons_of_mem _ hc2, h2⟩

theorem innerFold_none {key : Bytes} :
    ∀ (chains : NodeChanBucket) (acc : Option ChanRecord),
      (∀ c ∈ chains, alookup c.2 key = none) →
      chains.foldl
        (fun acc2 c =>
          match alookup c.2 key with
          | some ch2 => some ch2
          | none => acc2)
        acc = acc := by
  intro chains
  induction chains with
  | nil => intro acc _; rfl
  | cons c rest ih =>
    intro acc hnone
    simp only [List.foldl_cons]
    rw [hnone c (List.mem_cons_self _ _)]
    exact ih acc fun c2 hc2 => hnone c2 (List.mem_cons_of_mem _ hc2)

theorem scanOpen_some {ob : OpenBucket} {key : Bytes} {ch : ChanRecord}
    (h : scanOpen ob key = some ch) :
    ∃ pr ∈ ob, pr.1.length = 33 ∧ ∃ c ∈ pr.2, alookup c.2 key = some ch := by
  suffices haux : ∀ (ob2 : OpenBucket) (acc : Option ChanRecord),
      ob2.foldl
        (fun acc pr =>
          if pr.1.length = 33 then
            pr.2.foldl
              (fun acc2 c =>
                match alookup c.2 key with
                | some ch2 => some ch2
                | none => acc2)
              acc
          else acc)
        acc = some ch →
      acc = some ch ∨
        ∃ pr ∈ ob2, pr.1.length = 33 ∧ ∃ c ∈ pr.2, alookup c.2 key = some ch by
    rcases haux ob none h with h1 | h1
    · exact absurd h1 (by simp)
    · exact h1
  intro ob2
  induction ob2 with
  | nil => intro acc h2; exact .inl h2
  | cons pr rest ih =>
    intro acc h2
    simp only [List.foldl_cons] at h2
    by_cases hlen : pr.1.length = 33
    · rw [if_pos hlen] at h2
      rcases ih _ h2 with h3 | ⟨pr2, hpr2, h4⟩
      · rcases innerFold_some pr.2 acc ch h3 with h5 | ⟨c, hc, h6⟩
        · exact .inl h5
        · exact .inr ⟨pr, List.mem_cons_self _ _, hlen, c, hc, h6⟩
      · exact .inr ⟨pr2, List.mem_cons_of_mem _ hpr2, h4⟩
    · rw [if_neg hlen] at h2
      rcases ih _ h2 with h3 | ⟨pr2, hpr2, h4⟩
      · exact .inl h3
      · exact .inr ⟨pr2, List.mem_cons_of_mem _ hpr2, h4⟩

theorem scanOpen_none_of (ob : OpenBucket) (key : Bytes)
    (h : ∀ pr ∈ ob, ∀ c ∈ pr.2, alookup c.2 key = none) :
    scanOpen ob key = none := by
  suffices haux : ∀ (ob2 : OpenBucket) (acc : Option ChanRecord),
      (∀ pr ∈ ob2, ∀ c ∈ pr.2, alookup c.2 key = none) →
      ob2.foldl
        (fun acc pr =>
          if pr.1.length = 33 then
            pr.2.foldl
              (fun acc2 c =>
                match alookup c.2 key with
                | some ch2 => some ch2
                | none => acc2)
              acc
          else acc)
        acc = acc by
    exact haux ob none h
  intro ob2
  induction ob2 with
  | nil => intro acc _; rfl
  | cons pr rest ih =>
    intro acc hnone
    simp only [List.foldl_cons]
    by_cases hlen : pr.1.length = 33
    · rw [if_pos hlen,
        innerFold_none pr.2 acc fun c hc => hnone pr (List.mem_cons_self _ _) c hc]
      exact ih acc fun pr2 hpr2 => hnone pr2 (List.mem_cons_of_mem _ hpr2)
    · rw [if_neg hlen]
      exact ih acc fun pr2 hpr2 => hnone pr2 (List.mem_cons_of_mem _ hpr2)

theorem deleteOpenLeaf_no_key (ob : OpenBucket) (pub chain key : Bytes)
    (hloc : ∀ pr ∈ ob, ∀ c ∈ pr.2, ¬ alookup c.2 key = none →
      pr.1 = pub ∧ c.1 = chain) :
    ∀ pr ∈ deleteOpenLeaf ob pub chain key, ∀ c ∈ pr.2,
      alookup c.2 key = none := by
  intro pr hpr c hc
  unfold deleteOpenLeaf at hpr
  rw [List.mem_filter] at hpr
  obtain ⟨hpr, _⟩ := hpr
  rw [List.mem_map] at hpr
  obtain ⟨pr0, hpr0, hmap⟩ := hpr
  by_cases hp : pr0.1 = pub
  · rw [if_pos hp] at hmap
    subst hmap
    simp only at hc
    rw [List.mem_filter] at hc
    obtain ⟨hc, _⟩ := hc
    rw [List.mem_map] at hc
    obtain ⟨c0, hc0, hcmap⟩ := hc
    by_cases hch : c0.1 = chain
    · rw [if_pos hch] at hcmap
      subst hcmap
      exact alookup_aerase_self _ _
    · rw [if_neg hch] at hcmap
      subst hcmap
      by_contra hne
      exact hch (hloc pr0 hpr0 c0 hc0 hne).2
  · rw [if_neg hp] at hmap
    subst hmap
    by_contra hne
    exact hp (hloc pr0 hpr0 c hc hne).1

theorem pruneLinkNodeM_openBucket (d : ChanDB) (p : Bytes) :
    (pruneLinkNodeM d p).openBucket = d.openBucket := by
  unfold pruneLinkNodeM deleteLinkNodeM
  split <;> rfl

theorem pruneLinkNodeM_closedBucket (d : ChanDB) (p : Bytes) :
    (pruneLinkNodeM d p).closedBucket = d.closedBucket := by
  unfold pruneLinkNodeM deleteLinkNodeM
  split <;> rfl

/-- C7: `AbandonChannel(outpoint, bestHeight)` succeeds without
modification when the channel is absent from the open tree but a
closed entry exists; propagates the closed-lookup error when both are
missing; and otherwise commits a close summary of type `Abandoned` with
`pending = false` and close height `bestHeight` under the outpoint key,
after which a second identical call also succeeds, leaves the state
unchanged, and exactly one closed entry exists for the outpoint. -/
theorem c7_abandonChannel (db : ChanDB) (op : OutPoint) (bestHeight : Nat) :
    (fetchChannelM db op = .error .errChannelNotFound →
      (∀ s, fetchClosedChannelM db op = .ok s →
        abandonChannel db op bestHeight = (db, none)) ∧
      (∀ e, fetchClosedChannelM db op = .error e →
        abandonChannel db op bestHeight = (db, some e))) ∧
    (∀ ob ch, db.openBucket = some ob → WFOpen ob →
      ((db.closedBucket.getD []).map (·.1)).Nodup →
      fetchChannelM db op = .ok ch →
      ∃ db2, abandonChannel db op bestHeight = (db2, none) ∧
        alookup (db2.closedBucket.getD []) (serOutpoint op) =
          some (abandonSummaryOf op ch bestHeight) ∧
        (abandonSummaryOf op ch bestHeight).closeType = .abandoned ∧
        (abandonSummaryOf op ch bestHeight).isPending = false ∧
        (abandonSummaryOf op ch bestHeight).closeHeight = bestHeight ∧
        ((db2.closedBucket.getD []).filter
          fun p => decide (p.1 = serOutpoint op)).length = 1 ∧
        abandonChannel db2 op bestHeight = (db2, none)) := by
  constructor
  · intro hnf
    constructor
    · intro s hcl
      unfold abandonChannel
      rw [hnf, hcl]
      simp
    · intro e hcl
      unfold abandonChannel
      rw [hnf, hcl]
      simp
  · intro ob ch hob hwf hnd hfetch
    have hscan : scanOpen ob (serOutpoint op) = some ch := by
      unfold fetchChannelM at hfetch
      simp only [hob] at hfetch
      cases hs : scanOpen ob (serOutpoint op) with
      | some ch2 =>
        simp only [hs] at hfetch
        injection hfetch with h2
        rw [h2]
      | none =>
        simp only [hs] at hfetch
        exact absurd hfetch (by simp)
    obtain ⟨pr, hpr, hlen, c, hcmem, hal⟩ := scanOpen_some hscan
    have hment : (serOutpoint op, ch) ∈ c.2 := alookup_eq_some_mem hal
    obtain ⟨hwf1, hwf2, hwf3⟩ := hwf
    obtain ⟨hid, hchain, hkeyr⟩ := hwf2 pr hpr c hcmem _ hment
    have hkey2 : serOutpoint ch.fundingOutpoint = serOutpoint op := hkeyr.symm
    have hloc : ∀ pr2 ∈ ob, ∀ c2 ∈ pr2.2,
        ¬ alookup c2.2 (serOutpoint op) = none →
        pr2.1 = ch.identityPub ∧ c2.1 = ch.chainHash := by
      intro pr2 hpr2 c2 hc2 hne
      obtain ⟨v, hv⟩ := Option.ne_none_iff_exists'.1 hne
      have hm2 := alookup_eq_some_mem hv
      have hu := hwf3 pr2 hpr2 c2 hc2 _ hm2 pr hpr c hcmem _ hment rfl
      exact ⟨hu.1.trans hid.symm, hu.2.trans hchain.symm⟩
    have habandon : abandonChannel db op bestHeight =
        closeChannelM db ch (abandonSummaryOf op ch bestHeight) := by
      unfold abandonChannel
      rw [hfetch]
    have hclose : closeChannelM db ch (abandonSummaryOf op ch bestHeight) =
        (pruneLinkNodeM
          { db with
              openBucket := some (deleteOpenLeaf (db.openBucket.getD [])
                ch.identityPub ch.chainHash (serOutpoint ch.fundingOutpoint))
              closedBucket := some (aput (db.closedBucket.getD [])
                (serOutpoint ch.fundingOutpoint)
                (abandonSummaryOf op ch bestHeight)) }
          ch.identityPub, none) := rfl
    refine ⟨_, habandon.trans hclose, ?_, rfl, rfl, rfl, ?_, ?_⟩
    · rw [pruneLinkNodeM_closedBucket]
      simp only [Option.getD_some]
      rw [hkey2]
      exact alookup_aput_self _ _ _
    · rw [pruneLinkNodeM_closedBucket]
      simp only [Option.getD_some]
      rw [hkey2]
      exact aput_filter_count _ _ _ hnd
    · have hopen2 : (pruneLinkNodeM
          { db with
              openBucket := some (deleteOpenLeaf (db.openBucket.getD [])
                ch.identityPub ch.chainHash (serOutpoint ch.fundingOutpoint))
              closedBucket := some (aput (db.closedBucket.getD [])
                (serOutpoint ch.fundingOutpoint)
                (abandonSummaryOf op ch bestHeight)) }
          ch.identityPub).openBucket =
          some (deleteOpenLeaf ob ch.identityPub ch.chainHash (serOutpoint op)) := by
        rw [pruneLinkNodeM_openBucket]
        rw [hob, hkey2]
        rfl
      have hclosed2 : (pruneLinkNodeM
          { db with
              openBucket := some (deleteOpenLeaf (db.openBucket.getD [])
                ch.identityPub ch.chainHash (serOutpoint ch.fundingOutpoint))
              closedBucket := some (aput (db.closedBucket.getD [])
                (serOutpoint ch.fundingOutpoint)
                (abandonSummaryOf op ch bestHeight)) }
          ch.identityPub).closedBucket =
          some (aput (db.closedBucket.getD []) (serOutpoint op)
            (abandonSummaryOf op ch bestHeight)) := by
        rw [pruneLinkNodeM_closedBucket]
        rw [hkey2]
      have hnone2 : scanOpen
          (deleteOpenLeaf ob ch.identityPub ch.chainHash (serOutpoint op))
          (serOutpoint op) = none :=
        scanOpen_none_of _ _ (deleteOpenLeaf_no_key ob _ _ _ hloc)
      have hfetch2 : fetchChannelM (pruneLinkNodeM
          { db with
              openBucket := some (deleteOpenLeaf (db.openBucket.getD [])
                ch.identityPub ch.chainHash (serOutpoint ch.fundingOutpoint))
              closedBucket := some (aput (db.closedBucket.getD [])
                (serOutpoint ch.fundingOutpoint)
                (abandonSummaryOf op ch bestHeight)) }
          ch.identityPub) op = .error .errChannelNotFound := by
        unfold fetchChannelM
        simp only [hopen2, hnone2]
      unfold abandonChannel
      simp only [hfetch2]
      unfold fetchClosedChannelM
      simp only [hclosed2, alookup_aput_self]
      simp

/-- C7 (witness): abandoning the only channel of `w7db` twice. -/
theorem c7_witness :
    ∃ db2, abandonChannel w7db c6opA 100 = (db2, none) ∧
      alookup (db2.closedBucket.getD []) (serOutpoint c6opA) =
        some (abandonSummaryOf c6opA w7chan 100) ∧
      abandonChannel db2 c6opA 100 = (db2, none) := by
  obtain ⟨db2, h1, h2, _, _, _, _, h7⟩ :=
    (c7_abandonChannel w7db c6opA 100).2 _ w7chan rfl (by decide) (by decide)
      (by decide)
  exact ⟨db2, h1, h2, h7⟩

/-! ## C6 and C10: the closed-bucket channel-id scan -/

theorem cmpBytes_refl (a : Bytes) : cmpBytes a a = .eq :=
  (cmpBytes_eq_iff a a).2 rfl

theorem cmpBytes_append_eqlen :
    ∀ (a b s t : Bytes), a.length = b.length →
      cmpBytes (a ++ s) (b ++ t) =
        (match cmpBytes a b with
         | .eq => cmpBytes s t
         | o => o) := by
  intro a
  induction a with
  | nil =>
    intro b s t hl
    cases b with
    | nil => simp [cmpBytes]
    | cons y bs => simp at hl
  | cons x as ih =>
    intro b s t hl
    cases b with
    | nil => simp at hl
    | cons y bs =>
      simp only [List.length_cons, Nat.add_right_cancel_iff] at hl
      simp only [List.cons_append, cmpBytes]
      by_cases h1 : x < y
      · simp [h1]
      · by_cases h2 : y < x
        · simp [h1, h2]
        · simp only [if_neg h1, if_neg h2]
          exact ih bs s t hl

theorem cmpBytes_cons_nil (x : Nat) (l : Bytes) : cmpBytes (x :: l) [] = .gt := rfl

theorem hash_take30_len {op : OutPoint} (hwf : op.WF) :
    (op.hash.take 30).length = 30 := by
  rw [List.length_take, hwf.1]
  omega

theorem chanIdOf_take30 {op : OutPoint} (hwf : op.WF) :
    (chanIdOf op).take 30 = op.hash.take 30 := by
  unfold chanIdOf
  exact List.take_left' (hash_take30_len hwf)

theorem serOutpoint_length {op : OutPoint} (hwf : op.WF) :
    (serOutpoint op).length = 36 := by
  simp [serOutpoint, be32, hwf.1]

theorem serOutpoint_gt_cid30 {op : OutPoint} (hwf : op.WF) :
    cmpBytes (serOutpoint op) ((chanIdOf op).take 30) = .gt := by
  rw [chanIdOf_take30 hwf]
  have hser : serOutpoint op =
      op.hash.take 30 ++ (op.hash.drop 30 ++ be32 op.index) := by
    unfold serOutpoint
    rw [← List.append_assoc, List.take_append_drop]
  rw [hser]
  have happ := cmpBytes_append_eqlen (op.hash.take 30) (op.hash.take 30)
    (op.hash.drop 30 ++ be32 op.index) [] rfl
  rw [List.append_nil] at happ
  rw [happ, cmpBytes_refl]
  have hde : op.hash.drop 30 ++ be32 op.index =
      (op.hash.drop 30 ++ be32 op.index) := rfl
  cases hx : op.hash.drop 30 with
  | nil => simp [be32, cmpBytes_cons_nil]
  | cons a l => simp [cmpBytes_cons_nil]

theorem readOutpointKey_of_len {k : Bytes} (h : k.length = 36) :
    readOutpointKey k = some (keyOutpoint k) := by
  unfold readOutpointKey
  rw [if_neg (by omega)]

theorem keyOutpoint_serOutpoint {op : OutPoint} (hwf : op.WF) :
    keyOutpoint (serOutpoint op) = op := by
  obtain ⟨hlen, hidx⟩ := hwf
  cases op with
  | mk hash index =>
    simp only at hlen hidx
    unfold keyOutpoint serOutpoint be32
    rw [List.drop_left' hlen]
    simp only
    rw [List.take_left' (by simpa using hlen)]
    simp only [OutPoint.mk.injEq, true_and]
    unfold debe32
    omega

theorem isChanPoint_self (op : OutPoint) : isChanPoint (chanIdOf op) op = true := by
  simp [isChanPoint]

theorem scan_condition_holds {cid30 k : Bytes} (hk : k.length = 36)
    (hc : cid30.length = 30) (hge : ¬ cmpBytes k cid30 = .lt) :
    ¬ cmpBytes cid30 (k.take 30) = .gt := by
  intro hgt
  have hlt : cmpBytes (k.take 30) cid30 = .lt := (cmpBytes_lt_iff_gt _ _).2 hgt
  apply hge
  have hk2 : k = k.take 30 ++ k.drop 30 := (List.take_append_drop 30 k).symm
  rw [hk2]
  have hlen30 : (k.take 30).length = cid30.length := by
    rw [List.length_take, hc, hk]
    omega
  have happ := cmpBytes_append_eqlen (k.take 30) cid30 (k.drop 30) [] hlen30
  rw [List.append_nil] at happ
  rw [happ, hlt]

theorem dropWhile_head_false {α : Type} (p : α → Bool) :
    ∀ (xs : List α) (y : α) (rest : List α),
      xs.dropWhile p = y :: rest → p y = false := by
  intro xs
  induction xs with
  | nil => intro y rest h; simp [List.dropWhile] at h
  | cons x xs2 ih =>
    intro y rest h
    rw [List.dropWhile_cons] at h
    by_cases hp : p x = true
    · rw [if_pos hp] at h
      exact ih y rest h
    · rw [if_neg hp] at h
      injection h with h1 _
      rw [← h1]
      exact Bool.not_eq_true _ ▸ hp

theorem mem_dropWhile_of_pred_false {α : Type} (p : α → Bool) (xs : List α) (a : α)
    (ha : a ∈ xs) (hp : p a = false) : a ∈ xs.dropWhile p := by
  have hsplit := List.takeWhile_append_dropWhile p xs
  rw [← hsplit] at ha
  rcases List.mem_append.1 ha with h | h
  · exact absurd (List.mem_takeWhile_imp h) (by simp [hp])
  · exact h

theorem dropWhile_all_ge (cid30 : Bytes) (closed : List (Bytes × Summary))
    (hsorted : closed.Pairwise fun p q => cmpBytes p.1 q.1 = .lt) :
    ∀ q ∈ closed.dropWhile (fun p => decide (cmpBytes p.1 cid30 = .lt)),
      ¬ cmpBytes q.1 cid30 = .lt := by
  cases hys : closed.dropWhile (fun p => decide (cmpBytes p.1 cid30 = .lt)) with
  | nil => intro q hq; simp at hq
  | cons y rest =>
    have hy : ¬ cmpBytes y.1 cid30 = .lt := by
      have := dropWhile_head_false _ closed y rest hys
      simpa using this
    have hsor2 : (y :: rest).Pairwise (fun p q => cmpBytes p.1 q.1 = .lt) := by
      rw [← hys]
      exact List.Pairwise.sublist (List.dropWhile_sublist _) hsorted
    intro q hq
    rcases List.mem_cons.1 hq with h | h
    · rw [h]; exact hy
    · intro hc
      have hlt := (List.pairwise_cons.1 hsor2).1 q h
      exact hy (cmpBytes_lt_trans _ _ _ hlt hc)

theorem alookup_cons {κ β : Type} [DecidableEq κ] (p : κ × β)
    (rest : List (κ × β)) (k : κ) :
    alookup (p :: rest) k = if p.1 = k then some p.2 else alookup rest k := by
  unfold alookup
  by_cases h : p.1 = k
  · rw [List.find?_cons_of_pos _ (by simp [h]), if_pos h]
    rfl
  · rw [List.find?_cons_of_neg _ (by simp [h]), if_neg h]

theorem alookup_of_mem_sorted {xs : List (Bytes × Summary)} {k : Bytes} {v : Summary}
    (hs : xs.Pairwise fun p q => cmpBytes p.1 q.1 = .lt)
    (hm : (k, v) ∈ xs) : alookup xs k = some v := by
  induction xs with
  | nil => cases hm
  | cons p rest ih =>
    rw [List.pairwise_cons] at hs
    rcases List.mem_cons.1 hm with h | h
    · rw [← h, alookup_cons]
      simp
    · have hlt := hs.1 _ h
      have hne : ¬ (p.1 = k) := by
        intro he
        rw [he] at hlt
        rw [cmpBytes_refl] at hlt
        exact absurd hlt (by decide)
      rw [alookup_cons, if_neg hne]
      exact ih hs.2 h

theorem scanClosed_finds {op : OutPoint} {s : Summary} (hwf : op.WF) :
    ∀ (ys : List (Bytes × Summary)),
      ys.Pairwise (fun p q => cmpBytes p.1 q.1 = .lt) →
      (∀ q ∈ ys, q.1.length = 36) →
      (∀ q ∈ ys, ¬ cmpBytes q.1 ((chanIdOf op).take 30) = .lt) →
      (∀ q ∈ ys, isChanPoint (chanIdOf op) (keyOutpoint q.1) = true →
        q.1 = serOutpoint op) →
      (serOutpoint op, s) ∈ ys →
      scanClosedForID (chanIdOf op) ys = .ok s := by
  have hc30 : ((chanIdOf op).take 30).length = 30 := by
    rw [chanIdOf_take30 hwf]
    exact hash_take30_len hwf
  intro ys
  induction ys with
  | nil => intro _ _ _ _ hm; cases hm
  | cons q rest ih =>
    intro hsorted hlen hge huniq hmem
    obtain ⟨k, v⟩ := q
    have hk36 : k.length = 36 := hlen (k, v) (List.mem_cons_self _ _)
    have hcond : ¬ cmpBytes ((chanIdOf op).take 30) (k.take 30) = .gt :=
      scan_condition_holds hk36 hc30 (hge (k, v) (List.mem_cons_self _ _))
    rw [List.pairwise_cons] at hsorted
    unfold scanClosedForID
    rw [if_neg (by omega : ¬ k.length < 30)]
    rw [if_pos hcond]
    simp only [readOutpointKey_of_len hk36]
    cases hm : isChanPoint (chanIdOf op) (keyOutpoint k) with
    | true =>
      rw [if_pos rfl]
      have hkey := huniq (k, v) (List.mem_cons_self _ _) hm
      simp only at hkey
      subst hkey
      rcases List.mem_cons.1 hmem with h | h
      · simp only [Prod.mk.injEq] at h
        rw [h.2]
      · have hlt := hsorted.1 _ h
        simp only at hlt
        rw [cmpBytes_refl] at hlt
        exact absurd hlt (by decide)
    | false =>
      rw [if_neg (by decide : ¬ (false = true))]
      have hnothead : ¬ ((serOutpoint op, s) = (k, v)) := by
        intro he
        simp only [Prod.mk.injEq] at he
        rw [← he.1, keyOutpoint_serOutpoint hwf, isChanPoint_self] at hm
        exact absurd hm (by decide)
      have hmem2 : (serOutpoint op, s) ∈ rest := by
        rcases List.mem_cons.1 hmem with h | h
        · exact absurd h hnothead
        · exact h
      exact ih hsorted.2
        (fun q2 hq2 => hlen q2 (List.mem_cons_of_mem _ hq2))
        (fun q2 hq2 => hge q2 (List.mem_cons_of_mem _ hq2))
        (fun q2 hq2 => huniq q2 (List.mem_cons_of_mem _ hq2))
        hmem2

theorem scanClosed_notfound {cid : Bytes} :
    ∀ (ys : List (Bytes × Summary)),
      (∀ q ∈ ys, q.1.length = 36) →
      (∀ q ∈ ys, isChanPoint cid (keyOutpoint q.1) = false) →
      scanClosedForID cid ys = .error .errClosedChannelNotFound := by
  intro ys
  induction ys with
  | nil => intro _ _; rfl
  | cons q rest ih =>
    intro hlen hno
    obtain ⟨k, v⟩ := q
    have hk36 : k.length = 36 := hlen (k, v) (List.mem_cons_self _ _)
    unfold scanClosedForID
    rw [if_neg (by omega : ¬ k.length < 30)]
    by_cases hcond : cmpBytes (cid.take 30) (k.take 30) ≠ .gt
    · rw [if_pos hcond]
      simp only [readOutpointKey_of_len hk36]
      rw [if_neg (by simp [hno (k, v) (List.mem_cons_self _ _)])]
      exact ih (fun q2 hq2 => hlen q2 (List.mem_cons_of_mem _ hq2))
        (fun q2 hq2 => hno q2 (List.mem_cons_of_mem _ hq2))
    · rw [if_neg hcond]

/-- C6 (counterexample): two distinct stored closed channels whose
outpoints derive the same channel id (`c6opA` with index 1 and txid
ending `00 01`, `c6opB` with index 0 and the all-zero txid).  For the
channel `c6opA` present in the closed bucket under its 36-byte key,
`FetchClosedChannelForID` returns the *other* channel's summary, not
the one `FetchClosedChannel c6opA` returns. -/
theorem c6_counterexample :
    (serOutpoint c6opA, c6sA) ∈ c6closed ∧
    fetchClosedChannelM c6db c6opA = .ok c6sA ∧
    fetchClosedChannelForID c6db (chanIdOf c6opA) = .ok c6sB ∧
    ¬ fetchClosedChannelForID c6db (chanIdOf c6opA) =
      fetchClosedChannelM c6db c6opA := by
  refine ⟨by decide, by decide, by decide, by decide⟩

/-- C6 (amended): for a closed bucket listed in ascending key order
whose keys are 36-byte outpoint keys, `FetchClosedChannelForID` applied
to the channel id derived from a stored outpoint returns the same close
summary as `FetchClosedChannel` applied to that outpoint *provided* no
other stored key's outpoint derives the same channel id; and when no
stored outpoint matches the channel id it returns
`ErrClosedChannelNotFound`. -/
theorem c6_closed_id_lookup_amended (db : ChanDB) (closed : List (Bytes × Summary))
    (hdb : db.closedBucket = some closed)
    (hsorted : closed.Pairwise fun p q => cmpBytes p.1 q.1 = .lt)
    (hlen : ∀ p ∈ closed, p.1.length = 36) :
    (∀ (op : OutPoint) (s : Summary), op.WF →
      (serOutpoint op, s) ∈ closed →
      (∀ p ∈ closed, isChanPoint (chanIdOf op) (keyOutpoint p.1) = true →
        p.1 = serOutpoint op) →
      fetchClosedChannelForID db (chanIdOf op) = .ok s ∧
      fetchClosedChannelM db op = .ok s) ∧
    (∀ cid : Bytes,
      (∀ p ∈ closed, isChanPoint cid (keyOutpoint p.1) = false) →
      fetchClosedChannelForID db cid = .error .errClosedChannelNotFound) := by
  constructor
  · intro op s hwf hmem huniq
    constructor
    · unfold fetchClosedChannelForID
      simp only [hdb]
      unfold cursorSeek
      have hsub := List.dropWhile_sublist
        (fun p : Bytes × Summary =>
          decide (cmpBytes p.1 ((chanIdOf op).take 30) = .lt)) (l := closed)
      apply scanClosed_finds hwf
      · exact List.Pairwise.sublist hsub hsorted
      · exact fun q hq => hlen q (hsub.subset hq)
      · exact dropWhile_all_ge _ _ hsorted
      · exact fun q hq => huniq q (hsub.subset hq)
      · apply mem_dropWhile_of_pred_false
        · exact hmem
        · simp only [decide_eq_false_iff_not]
          rw [serOutpoint_gt_cid30 hwf]
          decide
    · unfold fetchClosedChannelM
      simp only [hdb]
      rw [alookup_of_mem_sorted hsorted hmem]
  · intro cid hno
    unfold fetchClosedChannelForID
    simp only [hdb]
    unfold cursorSeek
    have hsub := List.dropWhile_sublist
      (fun p : Bytes × Summary => decide (cmpBytes p.1 (cid.take 30) = .lt))
      (l := closed)
    exact scanClosed_notfound _
      (fun q hq => hlen q (hsub.subset hq))
      (fun q hq => hno q (hsub.subset hq))

/-- C6 (amended, witness): a single-entry closed bucket, where the
channel id determines a unique stored outpoint. -/
theorem c6_amended_witness :
    fetchClosedChannelForID c6dbU (chanIdOf c6opA) = .ok c6sA ∧
    fetchClosedChannelM c6dbU c6opA = .ok c6sA :=
  (c6_closed_id_lookup_amended c6dbU [(serOutpoint c6opA, c6sA)] rfl
    (by decide) (by decide)).1 c6opA c6sA (by decide) (by decide) (by decide)

theorem scanClosed_no_fault (cid : Bytes) :
    ∀ (ys : List (Bytes × Summary)), (∀ q ∈ ys, 30 ≤ q.1.length) →
      ¬ scanClosedForID cid ys = .error .errSliceBounds := by
  intro ys
  induction ys with
  | nil => intro _ h; exact absurd h (by simp [scanClosedForID])
  | cons q rest ih =>
    intro hlen h
    obtain ⟨k, v⟩ := q
    have hk : 30 ≤ k.length := hlen (k, v) (List.mem_cons_self _ _)
    unfold scanClosedForID at h
    rw [if_neg (by omega : ¬ k.length < 30)] at h
    by_cases hcond : cmpBytes (cid.take 30) (k.take 30) ≠ .gt
    · rw [if_pos hcond] at h
      cases hro : readOutpointKey k with
      | none =>
        simp only [hro] at h
        exact absurd h (by decide)
      | some op2 =>
        simp only [hro] at h
        by_cases hm : isChanPoint cid op2 = true
        · rw [if_pos hm] at h
          exact absurd h (by simp)
        · rw [if_neg hm] at h
          exact ih (fun q2 hq2 => hlen q2 (List.mem_cons_of_mem _ hq2)) h
    · rw [if_neg hcond] at h
      exact absurd h (by decide)

/-- C10: `FetchClosedChannelForID` slices the first 30 bytes of every
key its cursor visits; when every key in the closed bucket is at least
30 bytes long (as is true of the 36-byte outpoint keys the store
writes), the scan never raises a slice-bounds fault — while on a bucket
holding a key shorter than 30 bytes the scan loop does fault. -/
theorem c10_scan_bounds_safe (db : ChanDB) (closed : List (Bytes × Summary))
    (cid : Bytes) (hdb : db.closedBucket = some closed)
    (hlen : ∀ p ∈ closed, 30 ≤ p.1.length) :
    ¬ fetchClosedChannelForID db cid = .error .errSliceBounds ∧
    scanClosedForID [] [([0], c6sA)] = .error .errSliceBounds := by
  constructor
  · unfold fetchClosedChannelForID
    simp only [hdb]
    unfold cursorSeek
    have hsub := List.dropWhile_sublist
      (fun p : Bytes × Summary => decide (cmpBytes p.1 (cid.take 30) = .lt))
      (l := closed)
    exact scanClosed_no_fault _ _ fun q hq => hlen q (hsub.subset hq)
  · decide

/-- C10 (witness): the scan over the 36-byte-keyed bucket `c6closed`
never faults. -/
theorem c10_witness :
    ¬ fetchClosedChannelForID c6db (chanIdOf c6opB) = .error .errSliceBounds ∧
    scanClosedForID [] [([0], c6sA)] = .error .errSliceBounds :=
  c10_scan_bounds_safe c6db c6closed (chanIdOf c6opB) rfl (by decide)

end ChannelDB
